import Mathlib

/-!
Shallow embedding of the `adr` mailing pipeline (Rust sources under `src/`):
the presort engine and mailing totals (`src/mailing.rs`), the USPS
standardizer cascade and barcode-input validation (`src/usps.rs`), the
person-to-mailpiece construction of `Mailing::load` (`src/mailing.rs`), and
the line-normalizer edit pass (`src/prsr.rs`).

Modelling conventions:
* Rust machine integers become `Nat`, with `% 2 ^ w` written out where the
  original code truncates (`as u16`, `u32` arithmetic).
* Rust `String` becomes Lean `String`; all string data relevant to the
  claims is ASCII, so Rust byte lengths and byte-wise comparisons coincide
  with the character-list operations used here.
* `f64` postage arithmetic is modelled over `ℚ` with the exact literals
  `0.173` / `0.208`; the spec's tolerance of `0.0001` absorbs the difference
  between binary floating point and exact rationals at these magnitudes.
* `sort_unstable_by_key` is modelled by `List.insertionSort` on the same
  key; the key order is total, and no claim depends on how ties between
  fully equal keys are broken.
* Fallible code returns `Except String`; the external USPS lookup service
  is a parameter (`Svc`), everything around it is translated from source.
-/

namespace Adr

/-- `Mailpiece` from `src/models.rs`. -/
structure Mailpiece where
  name : String
  title1 : Option String
  title2 : Option String
  address1 : String
  city : String
  state : String
  zip5 : Nat
  zip4 : Nat
  delivery_point : Option String
  barcode : String
  id : Nat
deriving DecidableEq

/-- `BarcodeId` from `src/mailing.rs`. -/
inductive BarcodeId where
  | Default
  | CarrierRoute
  | FiveDigit
  | ThreeDigit
  | Aadc
  | MixedAadc
deriving DecidableEq

/-- `TraySize` from `src/mailing.rs`. -/
inductive TraySize where
  | OneFoot
  | TwoFoot
deriving DecidableEq

/-- `MailTray` from `src/mailing.rs`. -/
structure MailTray where
  name : String
  size : TraySize
  barcode_id : BarcodeId
  mailpieces : List Mailpiece
deriving DecidableEq

/-- `CAP_1FOOT` in `segment_trays` (`src/mailing.rs`). -/
def CAP_1FOOT : Nat := 600

/-- `CAP_2FOOT` in `segment_trays` (`src/mailing.rs`). -/
def CAP_2FOOT : Nat := 1200

/-- The `while remaining_pieces.len() > CAP_2FOOT` loop of `segment_trays`
together with the trailing-remainder handling (`src/mailing.rs`,
`segment_trays`, third branch). -/
def peelTwoFoot (barcode_id : BarcodeId) (remaining : List Mailpiece) :
    List MailTray :=
  if h : CAP_2FOOT < remaining.length then
    ⟨"", TraySize.TwoFoot, barcode_id, remaining.take CAP_2FOOT⟩ ::
      peelTwoFoot barcode_id (remaining.drop CAP_2FOOT)
  else if CAP_1FOOT < remaining.length then
    [⟨"", TraySize.TwoFoot, barcode_id, remaining⟩]
  else if remaining.isEmpty then
    []
  else
    [⟨"", TraySize.OneFoot, barcode_id, remaining⟩]
termination_by remaining.length
decreasing_by
  simp only [List.length_drop, CAP_2FOOT] at *
  omega

/-- `segment_trays` from `src/mailing.rs`. -/
def segment_trays (barcode_id : BarcodeId) (mailpieces : List Mailpiece) :
    List MailTray :=
  if mailpieces.length ≤ CAP_1FOOT then
    [⟨"", TraySize.OneFoot, barcode_id, mailpieces⟩]
  else if mailpieces.length ≤ CAP_2FOOT then
    [⟨"", TraySize.TwoFoot, barcode_id, mailpieces⟩]
  else
    peelTwoFoot barcode_id mailpieces

/-- `itertools::chunk_by(|mp| mp.zip5)` as used in `presort_mailpieces`:
maximal runs of consecutive entries with equal `zip5`. -/
def chunkByZip5 : List Mailpiece → List (List Mailpiece)
  | [] => []
  | mp :: rest =>
    match chunkByZip5 rest with
    | [] => [[mp]]
    | [] :: gs => [mp] :: [] :: gs
    | (mp2 :: g) :: gs =>
      if mp.zip5 = mp2.zip5 then (mp :: mp2 :: g) :: gs
      else [mp] :: (mp2 :: g) :: gs

/-- The key order of `mailpieces.sort_unstable_by_key(|o| o.zip5)` in
`presort_mailpieces`. -/
def zip5Order (a b : Mailpiece) : Prop := a.zip5 ≤ b.zip5

instance : DecidableRel zip5Order := fun a b => Nat.decLe a.zip5 b.zip5

instance : IsTotal Mailpiece zip5Order := ⟨fun a b => Nat.le_total a.zip5 b.zip5⟩

instance : IsTrans Mailpiece zip5Order := ⟨fun _ _ _ => Nat.le_trans⟩

/-- `PRESORT_MIN` from `presort_mailpieces` (`src/mailing.rs`). -/
def PRESORT_MIN : Nat := 200

/-- The tray-naming loop of `presort_mailpieces`: `chr` starts at
`'A' as u32 = 65` and increments once per tray. -/
def nameTraysFrom (chr : Nat) : List MailTray → List MailTray
  | [] => []
  | t :: ts =>
    { t with name := String.singleton (Char.ofNat chr) } :: nameTraysFrom (chr + 1) ts

/-- `presort_mailpieces` from `src/mailing.rs`: sort by `zip5`, chunk by
`zip5`, groups of at least `PRESORT_MIN` become FiveDigit trays in group
order, all smaller groups are pooled (in order) into one MixedAadc group,
which is segmented and appended; finally trays are named `A`, `B`, …. -/
def presort_mailpieces (mailpieces : List Mailpiece) : List MailTray :=
  let sorted := List.insertionSort zip5Order mailpieces
  let groups := chunkByZip5 sorted
  let fiveDig :=
    (groups.filter (fun g => PRESORT_MIN ≤ g.length)).flatMap
      (segment_trays BarcodeId.FiveDigit)
  let mixed_aadcs :=
    (groups.filter (fun g => ¬ PRESORT_MIN ≤ g.length)).flatMap (fun g => g)
  nameTraysFrom 65 (fiveDig ++ segment_trays BarcodeId.MixedAadc mixed_aadcs)

/-! ### Sort key and id assignment (`Mailing::load`, `src/mailing.rs`) -/

/-- The character for decimal digit `d` (`'0'` + d). -/
def digitChar (d : Nat) : Char := Char.ofNat (48 + d)

/-- Fixed-width zero-padded decimal digits, most significant first.
`padDigits 5 n` models `format!("{:05}", n)` for `n < 10 ^ 5`; the data
model bounds `zip5 ≤ 99999` and `zip4 ≤ 9999`, under which the padded
strings have exactly the fixed width. -/
def padDigits : Nat → Nat → List Char
  | 0, _ => []
  | k + 1, n => digitChar (n / 10 ^ k) :: padDigits k (n % 10 ^ k)

/-- `format!("{:05}", n)` (see `padDigits`). -/
def pad5 (n : Nat) : String := String.mk (padDigits 5 n)

/-- `format!("{:04}", n)` (see `padDigits`). -/
def pad4 (n : Nat) : String := String.mk (padDigits 4 n)

/-- Byte-lexicographic `≤` on strings (as lists of characters),
the order Rust uses to compare the `String` sort keys. -/
def lexLeB : List Char → List Char → Bool
  | [], _ => true
  | _ :: _, [] => false
  | a :: as1, b :: bs =>
    if a.toNat < b.toNat then true
    else if b.toNat < a.toNat then false
    else lexLeB as1 bs

/-- The sort key `format!("{:05}{:04}", o.zip5, o.zip4)` of
`Mailing::load` (`src/mailing.rs`). -/
def sortKey (mp : Mailpiece) : List Char :=
  padDigits 5 mp.zip5 ++ padDigits 4 mp.zip4

/-- The order induced by `sortKey` under byte-lexicographic comparison. -/
def keyOrder (a b : Mailpiece) : Prop := lexLeB (sortKey a) (sortKey b) = true

instance : DecidableRel keyOrder := fun a b =>
  instDecidableEqBool (lexLeB (sortKey a) (sortKey b)) true

/-- The id-assignment loop of `Mailing::load`: `mp.id = base_id + idx`,
with `u32` arithmetic. -/
def assign_from (base : Nat) : List Mailpiece → List Mailpiece
  | [] => []
  | mp :: rest => { mp with id := base % 2 ^ 32 } :: assign_from (base + 1) rest

/-- Sort by `(zip5, zip4)` key and assign consecutive ids starting at
`base` (`Mailing::load`, `src/mailing.rs`). -/
def assign_ids (base : Nat) (mps : List Mailpiece) : List Mailpiece :=
  assign_from base (List.insertionSort keyOrder mps)

/-- The trays of a freshly built mailing: ids assigned from
`CFG.last_mailpiece_id + 1`, then presorted (`Mailing::load`). -/
def mailing_trays (last_mailpiece_id : Nat) (mps : List Mailpiece) :
    List MailTray :=
  presort_mailpieces (assign_ids (last_mailpiece_id + 1) mps)

/-- Mailpiece ids in final presorted output order. -/
def output_ids (trays : List MailTray) : List Nat :=
  (trays.flatMap (fun t => t.mailpieces)).map (fun mp => mp.id)

/-- Mailpiece ids of the trays of one rate category, in output order. -/
def portion_ids (b : BarcodeId) (trays : List MailTray) : List Nat :=
  ((trays.filter (fun t => t.barcode_id == b)).flatMap
    (fun t => t.mailpieces)).map (fun mp => mp.id)

/-! ### Mailing totals (`Mailing::load`, `src/mailing.rs`) -/

/-- `mailing.mailpiece_cnt = mailpieces.len() as u16`. -/
def mailpiece_cnt (mps : List Mailpiece) : Nat := mps.length % 2 ^ 16

/-- `mailing.five_dig_cnt`: total pieces over FiveDigit trays, `as u16`. -/
def five_dig_cnt (trays : List MailTray) : Nat :=
  ((trays.filter (fun t => t.barcode_id == BarcodeId.FiveDigit)).map
    (fun t => t.mailpieces.length)).sum % 2 ^ 16

/-- `mailing.mixed_aadc_cnt`: total pieces over MixedAadc trays, `as u16`. -/
def mixed_aadc_cnt (trays : List MailTray) : Nat :=
  ((trays.filter (fun t => t.barcode_id == BarcodeId.MixedAadc)).map
    (fun t => t.mailpieces.length)).sum % 2 ^ 16

/-- `PRC_FIVE_DIG` (`src/mailing.rs`), over `ℚ`. -/
def PRC_FIVE_DIG : ℚ := 0.173

/-- `PRC_MIXED_AADC` (`src/mailing.rs`), over `ℚ`. -/
def PRC_MIXED_AADC : ℚ := 0.208

/-- `mailing.postage_subtotal_five_dig`. -/
def postage_subtotal_five_dig (trays : List MailTray) : ℚ :=
  (five_dig_cnt trays : ℚ) * PRC_FIVE_DIG

/-- `mailing.postage_subtotal_mixed_aadc`. -/
def postage_subtotal_mixed_aadc (trays : List MailTray) : ℚ :=
  (mixed_aadc_cnt trays : ℚ) * PRC_MIXED_AADC

/-- `mailing.part_a_subtotal`. -/
def part_a_subtotal (trays : List MailTray) : ℚ :=
  postage_subtotal_five_dig trays + postage_subtotal_mixed_aadc trays

/-! ### Persons and mailpiece construction (`Mailing::load`) -/

/-- `Address` from `src/models.rs`. -/
structure Address where
  address1 : String
  address2 : Option String
  city : String
  state : String
  zip5 : Nat
  zip4 : Nat
  delivery_point : Option String
deriving DecidableEq

/-- `Person` from `src/models.rs`. -/
structure Person where
  name : String
  title1 : String
  title2 : String
  url : String
  adrs : Option (List Address)
deriving DecidableEq

/-- `string_to_opt` from `src/core.rs`. -/
def string_to_opt (s : String) : Option String :=
  if s.isEmpty then none else some s

/-- The `Display` implementation of `Person` (`src/models.rs`), used in
the "missing address" error. -/
def person_display (p : Person) : String :=
  p.name ++ "," ++ p.title1 ++ "," ++ p.title2 ++ "," ++ p.url

/-- The `Mailpiece` built for one `(Person, Address)` pair in
`Mailing::load`; the remaining fields come from `Default`. -/
def mailpiece_of (per : Person) (adr : Address) : Mailpiece :=
  { name := per.name
    title1 := string_to_opt per.title1
    title2 := string_to_opt per.title2
    address1 := adr.address1
    city := adr.city
    state := adr.state
    zip5 := adr.zip5
    zip4 := adr.zip4
    delivery_point := adr.delivery_point
    barcode := ""
    id := 0 }

/-- The mailpiece-creation loop of `Mailing::load` (`src/mailing.rs`,
lines 81–103): one mailpiece per address of each person, in order;
a person without addresses aborts with the "missing address" error. -/
def build_mailpieces : List Person → Except String (List Mailpiece)
  | [] => .ok []
  | per :: rest =>
    match per.adrs with
    | none => .error ("missing address for " ++ person_display per)
    | some adrs =>
      match build_mailpieces rest with
      | .error e => .error e
      | .ok ms => .ok (adrs.map (mailpiece_of per) ++ ms)

/-! ### USPS standardizer (`src/usps.rs`) -/

/-- `StdAdr` from `src/usps.rs`. -/
inductive StdAdr where
  | AsIs
  | CombineAdr1Adr2
  | SwapAdr1Adr2
deriving DecidableEq

/-- `USPSAddress` from `src/usps.rs`. -/
structure USPSAddress where
  company_name : Option String
  address_line1 : String
  address_line2 : Option String
  city : String
  state : String
  zip5 : String
  zip4 : String
  delivery_point : Option String
deriving DecidableEq

/-- `USPSResponse` from `src/usps.rs`. -/
structure USPSResponse where
  result_status : String
  address_list : List USPSAddress

/-- The external USPS zip-lookup endpoint, abstracted as a function from
the posted form parameters to the parsed response. -/
def Svc : Type := List (String × String) → USPSResponse

/-- Whether `pre` is a prefix of `s` (character-wise). -/
def listStartsWith : List Char → List Char → Bool
  | _, [] => true
  | [], _ :: _ => false
  | c :: cs, p :: ps => c == p && listStartsWith cs ps

/-- Whether `sub` occurs as a contiguous substring of `s`
(Rust `str::contains`). -/
def listContainsSub : List Char → List Char → Bool
  | [], sub => sub.isEmpty
  | c :: cs, sub => listStartsWith (c :: cs) sub || listContainsSub cs sub

/-- `str::parse::<u32>` on the digit strings returned by the USPS
service; modelled totally (non-digit characters contribute their
code-point offset, the service only returns digit strings). -/
def parseNatDigits (s : String) : Nat :=
  s.data.foldl (fun acc c => acc * 10 + (c.toNat - 48)) 0

/-- `from` in `src/usps.rs`: overwrite an `Address` from a chosen
`USPSAddress` candidate (`zip4` only when the candidate has one). -/
def adr_from (adr : Address) (usps : USPSAddress) : Address :=
  { adr with
    address1 := usps.address_line1
    address2 := usps.address_line2
    city := usps.city
    state := usps.state
    zip5 := parseNatDigits usps.zip5
    zip4 := if usps.zip4.isEmpty then adr.zip4 else parseNatDigits usps.zip4
    delivery_point := usps.delivery_point }

/-- The form-parameter construction of `standardize_address` for the
chosen approach (`src/usps.rs`, lines 65–92); `SwapAdr1Adr2` with no
`address2` is an error before any request is made. -/
def std_prms_head (adr : Address) : StdAdr → Except String (List (String × String))
  | .AsIs =>
    .ok ((if adr.address1.isEmpty then [] else [("address1", adr.address1)]) ++
      (match adr.address2 with
       | some a2 => [("address2", a2)]
       | none => []))
  | .CombineAdr1Adr2 =>
    .ok [("address1",
      match adr.address2 with
      | some a2 => adr.address1 ++ " " ++ a2
      | none => adr.address1)]
  | .SwapAdr1Adr2 =>
    match adr.address2 with
    | some a2 => .ok [("address1", a2)]
    | none => .error "No address2 to swap to address1."

/-- The city/state/zip form parameters of `standardize_address`
(`src/usps.rs`, lines 94–102). -/
def std_prms_tail (adr : Address) (drop_zip : Bool) : List (String × String) :=
  (if adr.city.isEmpty then [] else [("city", adr.city)]) ++
  (if adr.state.isEmpty then [] else [("state", adr.state)]) ++
  (if drop_zip = false ∧ adr.zip5 ≠ 0 then [("zip", pad5 adr.zip5)] else [])

/-- `standardize_address` from `src/usps.rs`: build parameters, call the
service, and on `SUCCESS` select a candidate (drop candidates whose line 1
contains `Range`; prefer one without a line 2, else the first). -/
def standardize_address (svc : Svc) (adr : Address) (approach : StdAdr)
    (drop_zip : Bool) : Except String Address :=
  match std_prms_head adr approach with
  | .error e => .error e
  | .ok head =>
    let response := svc (head ++ std_prms_tail adr drop_zip)
    if response.result_status = "SUCCESS" then
      if response.address_list.isEmpty then
        .error "No address found in the USPS response."
      else
        let usps_adrs := response.address_list.filter
          (fun v => !(listContainsSub v.address_line1.data "Range".data))
        match usps_adrs with
        | [] => .error "Over filtered response. No address found in the USPS response."
        | [a0] => .ok (adr_from adr a0)
        | a0 :: _ :: _ =>
          match usps_adrs.find? (fun v => v.address_line2.isNone) with
          | some na => .ok (adr_from adr na)
          | none => .ok (adr_from adr a0)
    else .error "Failed to standardize address."

/-- The per-address cascade in the loop body of `standardize_addresses`
(`src/usps.rs`, lines 13–43): AsIs, then CombineAdr1Adr2, then
SwapAdr1Adr2, then zero the zip and retry AsIs with `drop_zip`;
the last failure propagates. -/
def standardize_one (svc : Svc) (adr : Address) : Except String Address :=
  match standardize_address svc adr .AsIs false with
  | .ok a => .ok a
  | .error _ =>
    match standardize_address svc adr .CombineAdr1Adr2 false with
    | .ok a => .ok a
    | .error _ =>
      match standardize_address svc adr .SwapAdr1Adr2 false with
      | .ok a => .ok a
      | .error _ => standardize_address svc { adr with zip5 := 0 } .AsIs true

/-- Three-way comparison on `Nat`. -/
def cmpNat (a b : Nat) : Ordering :=
  if a < b then .lt else if b < a then .gt else .eq

/-- Byte-lexicographic three-way comparison on character lists. -/
def cmpChars : List Char → List Char → Ordering
  | [], [] => .eq
  | [], _ :: _ => .lt
  | _ :: _, [] => .gt
  | a :: as1, b :: bs =>
    if a.toNat < b.toNat then .lt
    else if b.toNat < a.toNat then .gt
    else cmpChars as1 bs

/-- Derived `Ord` on `Option<String>`: `None < Some`. -/
def cmpOptStr : Option String → Option String → Ordering
  | none, none => .eq
  | none, some _ => .lt
  | some _, none => .gt
  | some a, some b => cmpChars a.data b.data

/-- The derived `Ord` of `Address` (`src/models.rs`): field by field in
declaration order. -/
def addrCmp (a b : Address) : Ordering :=
  (cmpChars a.address1.data b.address1.data).then
    ((cmpOptStr a.address2 b.address2).then
      ((cmpChars a.city.data b.city.data).then
        ((cmpChars a.state.data b.state.data).then
          ((cmpNat a.zip5 b.zip5).then
            ((cmpNat a.zip4 b.zip4).then
              (cmpOptStr a.delivery_point b.delivery_point))))))

/-- The order used by `adrs.sort_unstable()` in `standardize_addresses`. -/
def addrLe (a b : Address) : Prop := ¬ addrCmp a b = Ordering.gt

instance : DecidableRel addrLe := fun a b =>
  instDecidableNot

/-- `Vec::dedup_by(|a, b| a == b)`: drop consecutive duplicates,
keeping the first of each run. -/
def dedupAdj : List Address → List Address
  | [] => []
  | [a] => [a]
  | a :: b :: t =>
    if a = b then dedupAdj (a :: t) else a :: dedupAdj (b :: t)
termination_by l => l.length

/-- `standardize_addresses` from `src/usps.rs`: cascade each address in
order (aborting on a cascade failure), then sort and deduplicate. -/
def standardize_addresses (svc : Svc) : List Address → Except String (List Address)
  | adrs =>
    match go adrs with
    | .error e => .error e
    | .ok as1 => .ok (dedupAdj (List.insertionSort addrLe as1))
where
  go : List Address → Except String (List Address)
    | [] => .ok []
    | adr :: rest =>
      match standardize_one svc adr with
      | .error e => .error e
      | .ok a =>
        match go rest with
        | .error e => .error e
        | .ok as1 => .ok (a :: as1)

/-- The list of the four standardization attempts of the cascade, in
order, as described by the spec: AsIs, CombineAdr1Adr2, SwapAdr1Adr2,
then DropZip (zip5 cleared to 0 and AsIs retried). Written from the
spec's words, for comparison with `standardize_one`. -/
def cascade_attempts (adr : Address) : List (Address × StdAdr × Bool) :=
  [(adr, .AsIs, false),
   (adr, .CombineAdr1Adr2, false),
   (adr, .SwapAdr1Adr2, false),
   ({ adr with zip5 := 0 }, .AsIs, true)]

/-- "Stop at the first strategy whose lookup succeeds; if all fail, abort
with an error": run attempts in order, returning the first success, the
last attempt's error otherwise. Written from the spec's words. -/
def first_success (svc : Svc) : List (Address × StdAdr × Bool) → Except String Address
  | [] => .error "no attempts"
  | [att] => standardize_address svc att.1 att.2.1 att.2.2
  | att :: rest =>
    match standardize_address svc att.1 att.2.1 att.2.2 with
    | .ok a => .ok a
    | .error _ => first_success svc rest

/-! ### Barcode routing code (`MailTray::add_barcodes`, `src/mailing.rs`) -/

/-- The routing code built in `MailTray::add_barcodes` (`src/mailing.rs`,
lines 351–360): zip5 and zip4 when `zip4 != 0`, else zip5 alone; the
delivery point is appended only under the same `zip4 != 0` guard. -/
def routing_code (mp : Mailpiece) : String :=
  let rc :=
    if mp.zip4 ≠ 0 then pad5 mp.zip5 ++ pad4 mp.zip4 else pad5 mp.zip5
  if mp.zip4 ≠ 0 then
    match mp.delivery_point with
    | some dp => rc ++ dp
    | none => rc
  else rc

/-- The routing code as the claim states it: zip5 always, zip4 appended
when non-zero, delivery point appended whenever present and non-empty.
Written from the spec's words, for comparison with `routing_code`. -/
def routing_code_claimed (mp : Mailpiece) : String :=
  pad5 mp.zip5 ++
    (if mp.zip4 ≠ 0 then pad4 mp.zip4 else "") ++
    (match mp.delivery_point with
     | some dp => if dp.isEmpty then "" else dp
     | none => "")

/-- The amended routing-code description: zip5 always; when `zip4` is
non-zero, zip4 and then any present delivery point are appended; when
`zip4` is zero nothing else is appended. -/
def routing_code_amended (mp : Mailpiece) : String :=
  pad5 mp.zip5 ++
    (if mp.zip4 ≠ 0 then
      pad4 mp.zip4 ++
        (match mp.delivery_point with
         | some dp => dp
         | none => "")
     else "")

/-! ### Barcode input validation (`encode_barcode`, `src/usps.rs`) -/

/-- All characters are ASCII digits. -/
def allAsciiDigits (s : String) : Bool := s.data.all (fun c => c.isDigit)

/-- The input validation of `encode_barcode` (`src/usps.rs`, lines
191–213), which runs before the external encoder is contacted; each
failing check is a fatal error. -/
def encode_barcode_validate (barcode_id service_id mailer_id serial_id
    routing_code : String) : Except String Unit :=
  if barcode_id.data.length ≠ 2 ∨ ¬ allAsciiDigits barcode_id = true ∨
      '4' < barcode_id.data.getD 1 '0' then
    .error "Invalid barcode_id"
  else if service_id.data.length ≠ 3 ∨ ¬ allAsciiDigits service_id = true then
    .error "Invalid service_id"
  else if mailer_id.data.length ≠ 9 ∨ ¬ allAsciiDigits mailer_id = true then
    .error "Invalid mailer_id"
  else if serial_id.data.length ≠ 6 ∨ ¬ allAsciiDigits serial_id = true then
    .error "Invalid serial_id"
  else if ¬ (routing_code.data.length = 0 ∨ routing_code.data.length = 5 ∨
      routing_code.data.length = 9 ∨ routing_code.data.length = 11) ∨
      ¬ allAsciiDigits routing_code = true then
    .error "Invalid zip_code"
  else .ok ()

/-- The field rules exactly as the claim lists them: widths 2/3/9/6 of
ASCII digits, and a routing code of ASCII digits with length 0, 5, 9 or
11. Written from the spec's words, for comparison with
`encode_barcode_validate`. -/
def barcode_fields_claimed_valid (barcode_id service_id mailer_id serial_id
    routing_code : String) : Prop :=
  barcode_id.data.length = 2 ∧ allAsciiDigits barcode_id = true ∧
  service_id.data.length = 3 ∧ allAsciiDigits service_id = true ∧
  mailer_id.data.length = 9 ∧ allAsciiDigits mailer_id = true ∧
  serial_id.data.length = 6 ∧ allAsciiDigits serial_id = true ∧
  (routing_code.data.length = 0 ∨ routing_code.data.length = 5 ∨
    routing_code.data.length = 9 ∨ routing_code.data.length = 11) ∧
  allAsciiDigits routing_code = true

instance (b s m sr r : String) :
    Decidable (barcode_fields_claimed_valid b s m sr r) := by
  unfold barcode_fields_claimed_valid
  infer_instance

/-- The amended field rules: as claimed, plus the second digit of
`barcode_id` is at most `'4'` (barcode identifiers end in 0 or 4 per the
IMb specification, which the code checks). -/
def barcode_fields_valid (barcode_id service_id mailer_id serial_id
    routing_code : String) : Prop :=
  barcode_fields_claimed_valid barcode_id service_id mailer_id serial_id
    routing_code ∧
  barcode_id.data.getD 1 '0' ≤ '4'

instance (b s m sr r : String) :
    Decidable (barcode_fields_valid b s m sr r) := by
  unfold barcode_fields_valid
  infer_instance

/-! ### Line normalizer (`Prsr::edit_lnes` and helpers, `src/prsr.rs`) -/

/-- `is_zip5` from `src/prsr.rs`. -/
def is_zip5 (lne : String) : Bool :=
  lne.data.length == 5 && lne.data.all (fun c => c.isDigit)

/-- The indexed character check of `is_zip10`: position 5 is `'-'`,
every other position an ASCII digit. -/
def zip10Aux : List Char → Nat → Bool
  | [], _ => true
  | c :: cs, i => (if i == 5 then c == '-' else c.isDigit) && zip10Aux cs (i + 1)

/-- `is_zip10` from `src/prsr.rs`. -/
def is_zip10 (lne : String) : Bool :=
  lne.data.length == 10 && zip10Aux lne.data 0

/-- `is_zip` from `src/prsr.rs`. -/
def is_zip (lne : String) : Bool :=
  if lne.data.length == 5 then lne.data.all (fun c => c.isDigit)
  else if lne.data.length == 10 then zip10Aux lne.data 0
  else false

/-- `ends_with_zip5` from `src/prsr.rs`: a trailing 5-digit zip, with the
ROOM/SUITE/BOX and preceding-character exclusions. -/
def ends_with_zip5 (lne : String) : Option String :=
  let d := lne.data
  if 5 < d.length then
    let zip := String.mk (d.drop (d.length - 5))
    if is_zip5 zip then
      if 10 ≤ d.length ∧ listStartsWith (d.drop (d.length - 10)) "ROOM".data then
        none
      else if 11 ≤ d.length ∧ listStartsWith (d.drop (d.length - 11)) "SUITE".data then
        none
      else if 9 ≤ d.length ∧ listStartsWith (d.drop (d.length - 9)) "BOX".data then
        none
      else
        let c := d.getD (d.length - 6) '0'
        if ¬ (c.isDigit = true) ∧ c ≠ '-' ∧ c ≠ '#' then some zip else none
    else none
  else none

/-- `ends_with_zip10` from `src/prsr.rs`. -/
def ends_with_zip10 (lne : String) : Option String :=
  let d := lne.data
  if 10 < d.length then
    let zip := String.mk (d.drop (d.length - 10))
    if is_zip10 zip then some zip else none
  else none

/-- `ends_with_zip` from `src/prsr.rs`. -/
def ends_with_zip (lne : String) : Option String :=
  match ends_with_zip5 lne with
  | some zip => some zip
  | none => ends_with_zip10 lne

/-- `char::is_ascii_punctuation`. -/
def isAsciiPunct (c : Char) : Bool :=
  (33 ≤ c.toNat && c.toNat ≤ 47) || (58 ≤ c.toNat && c.toNat ≤ 64) ||
  (91 ≤ c.toNat && c.toNat ≤ 96) || (123 ≤ c.toNat && c.toNat ≤ 126)

/-- `trim_end_spc_pnc` from `src/prsr.rs`: drop trailing whitespace and
ASCII punctuation. -/
def trim_end_spc_pnc (s : String) : String :=
  String.mk ((s.data.reverse.dropWhile
    (fun c => c.isWhitespace || isAsciiPunct c)).reverse)

/-- `str::trim`. -/
def trimStr (s : String) : String :=
  String.mk (((s.data.dropWhile (fun c => c.isWhitespace)).reverse.dropWhile
    (fun c => c.isWhitespace)).reverse)

/-- `str::split(ch)`, keeping empty parts. -/
def splitCharAux (ch : Char) : List Char → List Char → List String
  | [], acc => [String.mk acc.reverse]
  | c :: cs, acc =>
    if c == ch then String.mk acc.reverse :: splitCharAux ch cs []
    else splitCharAux ch cs (c :: acc)

/-- `str::split_terminator(ch)`: like `split`, but a single trailing
empty part is dropped. -/
def splitTerminator (ch : Char) (s : String) : List String :=
  let ps := splitCharAux ch s.data []
  if ps.getLast? == some "" then ps.dropLast else ps

/-- Regex word character (`\w`): ASCII alphanumeric or underscore for the
ASCII inputs at hand. -/
def isWordChar (c : Char) : Bool := c.isAlphanum || c == '_'

/-- `\b` before a match position: start of text or a non-word character. -/
def boundaryOk : Option Char → Bool
  | none => true
  | some c => !isWordChar c

/-- Case-insensitive literal-word match; returns the remainder. -/
def matchWordCI : List Char → List Char → Option (List Char)
  | [], s => some s
  | _ :: _, [] => none
  | p :: ps, c :: cs => if c.toUpper == p then matchWordCI ps cs else none

/-- Match words separated by `\s+` (one or more whitespace), as in the
multi-word state names of `re_state`; returns the remainder. -/
def matchWordsCI : List String → List Char → Option (List Char)
  | [], s => some s
  | [w], s => matchWordCI w.data s
  | w :: w2 :: rest, s =>
    match matchWordCI w.data s with
    | none => none
    | some r =>
      match r with
      | [] => none
      | c :: _ =>
        if c.isWhitespace then
          matchWordsCI (w2 :: rest) (r.dropWhile (fun x => x.isWhitespace))
        else none

/-- The alternatives of `re_state` (`Prsr::new`, `src/prsr.rs`), in the
regex's order; matching is case-insensitive, multi-word names allow any
run of whitespace between words. -/
def STATE_ALTS : List (List String) :=
  [["AL"], ["ALABAMA"], ["AK"], ["ALASKA"], ["AS"], ["AMERICAN", "SAMOA"],
   ["AZ"], ["ARIZONA"], ["AR"], ["ARKANSAS"], ["CA"], ["CALIFORNIA"],
   ["CO"], ["COLORADO"], ["CT"], ["CONNECTICUT"], ["DE"], ["DELAWARE"],
   ["DC"], ["DISTRICT", "OF", "COLUMBIA"],
   ["FM"], ["FEDERATED", "STATES", "OF", "MICRONESIA"],
   ["FL"], ["FLORIDA"], ["GA"], ["GEORGIA"], ["GU"], ["GUAM"],
   ["HI"], ["HAWAII"], ["ID"], ["IDAHO"], ["IL"], ["ILLINOIS"],
   ["IN"], ["INDIANA"], ["IA"], ["IOWA"], ["KS"], ["KANSAS"],
   ["KY"], ["KENTUCKY"], ["LA"], ["LOUISIANA"], ["ME"], ["MAINE"],
   ["MH"], ["MARSHALL", "ISLANDS"], ["MD"], ["MARYLAND"],
   ["MA"], ["MASSACHUSETTS"], ["MI"], ["MICHIGAN"], ["MN"], ["MINNESOTA"],
   ["MS"], ["MISSISSIPPI"], ["MO"], ["MISSOURI"], ["MT"], ["MONTANA"],
   ["NE"], ["NEBRASKA"], ["NV"], ["NEVADA"], ["NH"], ["NEW", "HAMPSHIRE"],
   ["NJ"], ["NEW", "JERSEY"], ["NM"], ["NEW", "MEXICO"], ["NY"], ["NEW", "YORK"],
   ["NC"], ["NORTH", "CAROLINA"], ["ND"], ["NORTH", "DAKOTA"],
   ["MP"], ["NORTHERN", "MARIANA", "ISLANDS"],
   ["OH"], ["OHIO"], ["OK"], ["OKLAHOMA"], ["OR"], ["OREGON"],
   ["PW"], ["PALAU"], ["PA"], ["PENNSYLVANIA"], ["PR"], ["PUERTO", "RICO"],
   ["RI"], ["RHODE", "ISLAND"], ["SC"], ["SOUTH", "CAROLINA"],
   ["SD"], ["SOUTH", "DAKOTA"], ["TN"], ["TENNESSEE"], ["TX"], ["TEXAS"],
   ["UT"], ["UTAH"], ["VT"], ["VERMONT"], ["VI"], ["VIRGIN", "ISLANDS"],
   ["VA"], ["VIRGINIA"], ["WA"], ["WASHINGTON"], ["WV"], ["WEST", "VIRGINIA"],
   ["WI"], ["WISCONSIN"], ["WY"], ["WYOMING"],
   ["AA"], ["ARMED", "FORCES", "AMERICAS"],
   ["AE"], ["ARMED", "FORCES", "EUROPE"],
   ["AP"], ["ARMED", "FORCES", "PACIFIC"]]

/-- Try the state alternatives in regex order at the current position;
a hit requires a trailing word boundary. Returns the matched text and
the remainder. -/
def tryAltsGo (s : List Char) : List (List String) → Option (List Char × List Char)
  | [] => none
  | alt :: rest =>
    match matchWordsCI alt s with
    | some r =>
      if (match r with
          | [] => true
          | c :: _ => !isWordChar c) then
        some (s.take (s.length - r.length), r)
      else tryAltsGo s rest
    | none => tryAltsGo s rest

/-- All matches of `re_state` at one position. -/
def tryAlts (s : List Char) : Option (List Char × List Char) :=
  tryAltsGo s STATE_ALTS

/-- The scan of `re_state.find_iter`: leftmost matches, non-overlapping,
continuing after each match; `skip` counts positions still covered by the
previous match. -/
def scanStatesAux : Nat → Option Char → Nat → List Char → List (Nat × List Char)
  | _, _, _, [] => []
  | Nat.succ skip, _, pos, c :: cs => scanStatesAux skip (some c) (pos + 1) cs
  | 0, prev, pos, c :: cs =>
    match (if boundaryOk prev then tryAlts (c :: cs) else none) with
    | some (txt, _) =>
      (pos, txt) :: scanStatesAux (txt.length - 1) (some c) (pos + 1) cs
    | none => scanStatesAux 0 (some c) (pos + 1) cs

/-- All `re_state` matches of a line: start position and matched text. -/
def reStateFindAll (s : String) : List (Nat × String) :=
  (scanStatesAux 0 none 0 s.data).map (fun p => (p.1, String.mk p.2))

/-- `re_state.is_match`. -/
def reStateIsMatch (s : String) : Bool := !(reStateFindAll s).isEmpty

/-- `re_state.find_iter(..).last()`. -/
def reStateFindLast (s : String) : Option (Nat × String) :=
  (reStateFindAll s).getLast?

/-- `edit_split_bar` from `src/prsr.rs`: replace each line containing
`'|'` by its non-empty `split_terminator('|')` parts, trimmed. -/
def edit_split_bar (lnes : List String) : List String :=
  lnes.flatMap (fun lne =>
    if lne.data.contains '|' then
      ((splitTerminator '|' lne).filter (fun p => !p.isEmpty)).map trimStr
    else [lne])

/-- Insert one element at position `idx`. -/
def insertAt (lnes : List String) (idx : Nat) (x : String) : List String :=
  lnes.take idx ++ x :: lnes.drop idx

/-- Insert a list of elements at position `idx`, preserving their order. -/
def insertAllAt (lnes : List String) (idx : Nat) (xs : List String) : List String :=
  lnes.take idx ++ xs ++ lnes.drop idx

/-- One iteration of the `edit_concat_zip` loop at index `idx`
(`Prsr::edit_concat_zip`, `src/prsr.rs`). -/
def concatZipStep (lnes : List String) (idx : Nat) : List String :=
  let lne := lnes.getD idx ""
  if is_zip lne = true ∧ ¬ reStateIsMatch (lnes.getD (idx - 1) "") = true then
    (lnes.set (idx - 1) (lnes.getD (idx - 1) "" ++ " " ++ lne)).eraseIdx idx
  else lnes

/-- The `for idx in (1..lnes.len()).rev()` loop of `edit_concat_zip`. -/
def edit_concat_zip_aux : List String → Nat → List String
  | lnes, 0 => lnes
  | lnes, i + 1 => edit_concat_zip_aux (concatZipStep lnes (i + 1)) i

/-- `Prsr::edit_concat_zip` from `src/prsr.rs`: append a bare-zip line to
its predecessor unless the predecessor matches the state regex. -/
def edit_concat_zip (lnes : List String) : List String :=
  edit_concat_zip_aux lnes (lnes.length - 1)

/-- `edit_zip_disjoint` from `src/prsr.rs`: append the first (from the
end) line of fewer than five digits to its predecessor, then stop
(the loop `break`s after one mend). -/
def edit_zip_disjoint_aux : List String → Nat → List String
  | lnes, 0 => lnes
  | lnes, i + 1 =>
    let lne := lnes.getD (i + 1) ""
    if lne.data.length < 5 ∧ lne.data.all (fun c => c.isDigit) = true then
      (lnes.set i (lnes.getD i "" ++ lne)).eraseIdx (i + 1)
    else edit_zip_disjoint_aux lnes i

/-- `edit_zip_disjoint` from `src/prsr.rs`. -/
def edit_zip_disjoint (lnes : List String) : List String :=
  edit_zip_disjoint_aux lnes (lnes.length - 1)

/-- The comma-or-whole-line insertion at the end of
`edit_split_city_state_zip`'s loop body. -/
def insertParts (lnes : List String) (idx : Nat) (lne : String) : List String :=
  if lne.data.contains ',' then
    insertAllAt lnes idx ((splitTerminator ',' lne).map trimStr)
  else insertAt lnes idx lne

/-- One iteration of the `edit_split_city_state_zip` loop at index `idx`
(`Prsr::edit_split_city_state_zip`, `src/prsr.rs`): split a trailing zip
into its own line, then the last state-regex match into its own line,
then the remaining prefix (comma-split if it contains a comma). -/
def splitCSZStep (lnes : List String) (idx : Nat) : List String :=
  let lne := lnes.getD idx ""
  match ends_with_zip lne with
  | none => lnes
  | some zip =>
    let lnes1 := insertAt (lnes.eraseIdx idx) idx zip
    let lne1 := String.mk (lne.data.take (lne.data.length - zip.data.length))
    match reStateFindLast lne1 with
    | some st =>
      let lnes2 := insertAt lnes1 idx st.2
      insertParts lnes2 idx (trim_end_spc_pnc (String.mk (lne1.data.take st.1)))
    | none => insertParts lnes1 idx lne1

/-- The `for idx in (0..lnes.len()).rev()` loop of
`edit_split_city_state_zip`. -/
def edit_split_csz_aux : List String → Nat → List String
  | lnes, 0 => lnes
  | lnes, i + 1 => edit_split_csz_aux (splitCSZStep lnes i) i

/-- `Prsr::edit_split_city_state_zip` from `src/prsr.rs`. -/
def edit_split_city_state_zip (lnes : List String) : List String :=
  edit_split_csz_aux lnes lnes.length

/-- The scan of `edit_drain_after_last_zip`: looking from the end, keep
everything up to and including the last zip line. -/
def edit_drain_aux : List String → Nat → List String
  | lnes, 0 => lnes
  | lnes, i + 1 =>
    if is_zip (lnes.getD i "") then lnes.take (i + 1)
    else edit_drain_aux lnes i

/-- `edit_drain_after_last_zip` from `src/prsr.rs`. -/
def edit_drain_after_last_zip (lnes : List String) : List String :=
  edit_drain_aux lnes lnes.length

/-- `edit_single_comma` from `src/prsr.rs`. -/
def edit_single_comma (lnes : List String) : List String :=
  lnes.filter (fun l => !(l == ","))

/-- `edit_zip_20003` from `src/prsr.rs`. -/
def edit_zip_20003 (lnes : List String) : List String :=
  lnes.map (fun l => if l = "20003" then "20515" else l)

/-- `Prsr::edit_lnes` from `src/prsr.rs`: the seven edit passes in their
fixed order. -/
def edit_lnes (lnes : List String) : List String :=
  edit_zip_20003 (edit_single_comma (edit_drain_after_last_zip
    (edit_split_city_state_zip (edit_zip_disjoint (edit_concat_zip
      (edit_split_bar lnes))))))

/-! ### Concrete fixtures used by witnesses and counterexamples -/

/-- A minimal mailpiece with the given zips and delivery point. -/
def sampleMp (z5 z4 : Nat) (dp : Option String) : Mailpiece :=
  ⟨"", none, none, "", "", "", z5, z4, dp, "", 0⟩

/-- One mailpiece at a low zip whose group stays below `PRESORT_MIN`. -/
def c3_small : Mailpiece := sampleMp 10000 0 none

/-- A mailpiece at a higher zip; 200 copies form a FiveDigit group. -/
def c3_big : Mailpiece := sampleMp 20000 0 none

/-- 1 piece at zip 10000 followed by 200 pieces at zip 20000: the small
group is pooled into MixedAadc and emitted after the FiveDigit trays. -/
def c3_input : List Mailpiece := c3_small :: List.replicate 200 c3_big

/-! # Theorems -/

/-! ### Tray segmentation (`segment_trays`) -/

theorem peelTwoFoot_barcode (b : BarcodeId) (l : List Mailpiece) :
    ∀ t ∈ peelTwoFoot b l, t.barcode_id = b := by
  induction l using peelTwoFoot.induct b with
  | case1 x h ih =>
    intro t ht
    rw [peelTwoFoot, dif_pos h] at ht
    rcases List.mem_cons.mp ht with rfl | ht
    · rfl
    · exact ih t ht
  | case2 x h1 h2 =>
    intro t ht
    rw [peelTwoFoot, dif_neg h1, if_pos h2] at ht
    rcases List.mem_cons.mp ht with rfl | ht
    · rfl
    · simp at ht
  | case3 x h1 h2 h3 =>
    intro t ht
    rw [peelTwoFoot, dif_neg h1, if_neg h2, if_pos h3] at ht
    simp at ht
  | case4 x h1 h2 h3 =>
    intro t ht
    rw [peelTwoFoot, dif_neg h1, if_neg h2, if_neg h3] at ht
    rcases List.mem_cons.mp ht with rfl | ht
    · rfl
    · simp at ht

theorem peelTwoFoot_sizes (b : BarcodeId) (l : List Mailpiece) :
    ∀ t ∈ peelTwoFoot b l,
      (t.size = TraySize.OneFoot → t.mailpieces.length ≤ CAP_1FOOT) ∧
      (t.size = TraySize.TwoFoot → t.mailpieces.length ≤ CAP_2FOOT) := by
  induction l using peelTwoFoot.induct b with
  | case1 x h ih =>
    intro t ht
    rw [peelTwoFoot, dif_pos h] at ht
    rcases List.mem_cons.mp ht with rfl | ht
    · constructor
      · intro hs
        simp at hs
      · intro _
        show (List.take CAP_2FOOT x).length ≤ CAP_2FOOT
        simp only [List.length_take]
        omega
    · exact ih t ht
  | case2 x h1 h2 =>
    intro t ht
    rw [peelTwoFoot, dif_neg h1, if_pos h2] at ht
    rcases List.mem_cons.mp ht with rfl | ht
    · constructor
      · intro hs
        simp at hs
      · intro _
        show x.length ≤ CAP_2FOOT
        omega
    · simp at ht
  | case3 x h1 h2 h3 =>
    intro t ht
    rw [peelTwoFoot, dif_neg h1, if_neg h2, if_pos h3] at ht
    simp at ht
  | case4 x h1 h2 h3 =>
    intro t ht
    rw [peelTwoFoot, dif_neg h1, if_neg h2, if_neg h3] at ht
    rcases List.mem_cons.mp ht with rfl | ht
    · constructor
      · intro _
        show x.length ≤ CAP_1FOOT
        omega
      · intro hs
        simp at hs
    · simp at ht

theorem peelTwoFoot_flatten (b : BarcodeId) (l : List Mailpiece) :
    ((peelTwoFoot b l).map (fun t => t.mailpieces)).flatten = l := by
  induction l using peelTwoFoot.induct b with
  | case1 x h ih =>
    rw [peelTwoFoot, dif_pos h]
    simp only [List.map_cons, List.flatten_cons, ih]
    exact List.take_append_drop CAP_2FOOT x
  | case2 x h1 h2 =>
    rw [peelTwoFoot, dif_neg h1, if_pos h2]
    simp
  | case3 x h1 h2 h3 =>
    rw [peelTwoFoot, dif_neg h1, if_neg h2, if_pos h3]
    simpa using (List.isEmpty_iff.mp h3).symm
  | case4 x h1 h2 h3 =>
    rw [peelTwoFoot, dif_neg h1, if_neg h2, if_neg h3]
    simp

theorem peelTwoFoot_sub (b : BarcodeId) (l : List Mailpiece) :
    ∀ t ∈ peelTwoFoot b l, t.mailpieces.Sublist l := by
  induction l using peelTwoFoot.induct b with
  | case1 x h ih =>
    intro t ht
    rw [peelTwoFoot, dif_pos h] at ht
    rcases List.mem_cons.mp ht with rfl | ht
    · exact List.take_sublist CAP_2FOOT x
    · exact (ih t ht).trans (List.drop_sublist CAP_2FOOT x)
  | case2 x h1 h2 =>
    intro t ht
    rw [peelTwoFoot, dif_neg h1, if_pos h2] at ht
    rcases List.mem_cons.mp ht with rfl | ht
    · exact List.Sublist.refl x
    · simp at ht
  | case3 x h1 h2 h3 =>
    intro t ht
    rw [peelTwoFoot, dif_neg h1, if_neg h2, if_pos h3] at ht
    simp at ht
  | case4 x h1 h2 h3 =>
    intro t ht
    rw [peelTwoFoot, dif_neg h1, if_neg h2, if_neg h3] at ht
    rcases List.mem_cons.mp ht with rfl | ht
    · exact List.Sublist.refl x
    · simp at ht

theorem peelTwoFoot_ne_nil (b : BarcodeId) (l : List Mailpiece) (h : l ≠ []) :
    peelTwoFoot b l ≠ [] := by
  rw [peelTwoFoot]
  split
  · simp
  · split
    · simp
    · split
      · simp_all
      · simp

theorem peelTwoFoot_shape (b : BarcodeId) (l : List Mailpiece) (hne : l ≠ []) :
    (∀ t ∈ (peelTwoFoot b l).dropLast,
      t.size = TraySize.TwoFoot ∧ t.mailpieces.length = CAP_2FOOT) ∧
    ∃ last, (peelTwoFoot b l).getLast? = some last ∧
      last.mailpieces ≠ [] ∧
      (CAP_1FOOT < last.mailpieces.length → last.size = TraySize.TwoFoot) ∧
      (last.mailpieces.length ≤ CAP_1FOOT → last.size = TraySize.OneFoot) := by
  induction l using peelTwoFoot.induct b with
  | case1 x h ih =>
    have hxd : List.drop CAP_2FOOT x ≠ [] := by
      intro hd
      have := List.length_drop CAP_2FOOT x ▸ congrArg List.length hd
      simp at this
      omega
    obtain ⟨ihd, last, hlast, hlne, hl1, hl2⟩ := ih hxd
    have hpn : peelTwoFoot b (List.drop CAP_2FOOT x) ≠ [] :=
      peelTwoFoot_ne_nil b _ hxd
    obtain ⟨y, ys, hy⟩ := List.exists_cons_of_ne_nil hpn
    rw [peelTwoFoot, dif_pos h, hy]
    rw [hy] at ihd hlast
    constructor
    · intro t ht
      rw [List.dropLast_cons₂] at ht
      rcases List.mem_cons.mp ht with rfl | ht
      · refine ⟨rfl, ?_⟩
        show (List.take CAP_2FOOT x).length = CAP_2FOOT
        simp only [List.length_take]
        omega
      · exact ihd t ht
    · refine ⟨last, ?_, hlne, hl1, hl2⟩
      rwa [List.getLast?_cons_cons]
  | case2 x h1 h2 =>
    rw [peelTwoFoot, dif_neg h1, if_pos h2]
    refine ⟨by simp, ⟨"", TraySize.TwoFoot, b, x⟩, by simp, ?_, ?_, ?_⟩
    · intro hx
      have hx2 : x = [] := hx
      rw [hx2] at h2
      simp [CAP_1FOOT] at h2
    · intro _
      rfl
    · intro hc
      exact absurd h2 (Nat.not_lt.mpr hc)
  | case3 x h1 h2 h3 =>
    exact absurd (List.isEmpty_iff.mp h3) hne
  | case4 x h1 h2 h3 =>
    rw [peelTwoFoot, dif_neg h1, if_neg h2, if_neg h3]
    refine ⟨by simp, ⟨"", TraySize.OneFoot, b, x⟩, by simp, hne, ?_, ?_⟩
    · intro hc
      exact absurd hc h2
    · intro _
      rfl

theorem segment_trays_flatten (b : BarcodeId) (l : List Mailpiece) :
    ((segment_trays b l).map (fun t => t.mailpieces)).flatten = l := by
  rw [segment_trays]
  split
  · simp
  · split
    · simp
    · exact peelTwoFoot_flatten b l

theorem segment_trays_barcode (b : BarcodeId) (l : List Mailpiece) :
    ∀ t ∈ segment_trays b l, t.barcode_id = b := by
  rw [segment_trays]
  split
  · intro t ht
    rcases List.mem_singleton.mp ht with rfl
    rfl
  · split
    · intro t ht
      rcases List.mem_singleton.mp ht with rfl
      rfl
    · exact peelTwoFoot_barcode b l

theorem segment_trays_sizes (b : BarcodeId) (l : List Mailpiece) :
    ∀ t ∈ segment_trays b l,
      (t.size = TraySize.OneFoot → t.mailpieces.length ≤ CAP_1FOOT) ∧
      (t.size = TraySize.TwoFoot → t.mailpieces.length ≤ CAP_2FOOT) := by
  rw [segment_trays]
  split
  · intro t ht
    rcases List.mem_singleton.mp ht with rfl
    rename_i hc
    constructor
    · intro _
      exact hc
    · intro hs
      simp at hs
  · split
    · intro t ht
      rcases List.mem_singleton.mp ht with rfl
      rename_i hc1 hc2
      constructor
      · intro hs
        simp at hs
      · intro _
        exact hc2
    · exact peelTwoFoot_sizes b l

theorem segment_trays_sub (b : BarcodeId) (l : List Mailpiece) :
    ∀ t ∈ segment_trays b l, t.mailpieces.Sublist l := by
  rw [segment_trays]
  split
  · intro t ht
    rcases List.mem_singleton.mp ht with rfl
    exact List.Sublist.refl l
  · split
    · intro t ht
      rcases List.mem_singleton.mp ht with rfl
      exact List.Sublist.refl l
    · exact peelTwoFoot_sub b l

theorem segment_trays_cover (b : BarcodeId) (l : List Mailpiece) :
    ∀ mp ∈ l, ∃ t ∈ segment_trays b l, mp ∈ t.mailpieces := by
  intro mp hmp
  rw [← segment_trays_flatten b l] at hmp
  obtain ⟨xs, hxs, hmpx⟩ := List.mem_flatten.mp hmp
  obtain ⟨t, ht, rfl⟩ := List.mem_map.mp hxs
  exact ⟨t, ht, hmpx⟩

/-- C2: a non-empty group of at most 600 pieces becomes one OneFoot tray;
of at most 1200, one TwoFoot tray; larger groups are split into full
1200-piece TwoFoot trays with the non-empty tail a TwoFoot tray when
above 600 pieces and a OneFoot tray otherwise; every OneFoot tray holds
at most 600 and every TwoFoot tray at most 1200 pieces; 601 pieces give
exactly one TwoFoot tray and 1201 give a 1200-piece TwoFoot tray plus a
1-piece OneFoot tray. -/
theorem segment_trays_spec (b : BarcodeId) (mps : List Mailpiece)
    (hne : mps ≠ []) :
    (mps.length ≤ 600 →
      segment_trays b mps = [⟨"", TraySize.OneFoot, b, mps⟩]) ∧
    (600 < mps.length → mps.length ≤ 1200 →
      segment_trays b mps = [⟨"", TraySize.TwoFoot, b, mps⟩]) ∧
    (∀ t ∈ segment_trays b mps,
      (t.size = TraySize.OneFoot → t.mailpieces.length ≤ 600) ∧
      (t.size = TraySize.TwoFoot → t.mailpieces.length ≤ 1200)) ∧
    (1200 < mps.length →
      (∀ t ∈ (segment_trays b mps).dropLast,
        t.size = TraySize.TwoFoot ∧ t.mailpieces.length = 1200) ∧
      ∃ last, (segment_trays b mps).getLast? = some last ∧
        last.mailpieces ≠ [] ∧
        (600 < last.mailpieces.length → last.size = TraySize.TwoFoot) ∧
        (last.mailpieces.length ≤ 600 → last.size = TraySize.OneFoot)) ∧
    (mps.length = 601 →
      segment_trays b mps = [⟨"", TraySize.TwoFoot, b, mps⟩]) ∧
    (mps.length = 1201 →
      segment_trays b mps =
        [⟨"", TraySize.TwoFoot, b, mps.take 1200⟩,
         ⟨"", TraySize.OneFoot, b, mps.drop 1200⟩]) := by
  refine ⟨?_, ?_, ?_, ?_, ?_, ?_⟩
  · intro h
    rw [segment_trays, if_pos (by simpa [CAP_1FOOT] using h)]
  · intro h1 h2
    rw [segment_trays, if_neg (by simp [CAP_1FOOT]; omega),
      if_pos (by simpa [CAP_2FOOT] using h2)]
  · simpa [CAP_1FOOT, CAP_2FOOT] using segment_trays_sizes b mps
  · intro h
    rw [segment_trays, if_neg (by simp [CAP_1FOOT]; omega),
      if_neg (by simp [CAP_2FOOT]; omega)]
    simpa [CAP_1FOOT, CAP_2FOOT] using
      peelTwoFoot_shape b mps hne
  · intro h
    rw [segment_trays, if_neg (by simp [CAP_1FOOT]; omega),
      if_pos (by simp [CAP_2FOOT]; omega)]
  · intro h
    rw [segment_trays, if_neg (by simp [CAP_1FOOT]; omega),
      if_neg (by simp [CAP_2FOOT]; omega)]
    rw [peelTwoFoot, dif_pos (by simp [CAP_2FOOT]; omega)]
    rw [peelTwoFoot, dif_neg (by simp [CAP_2FOOT, List.length_drop]; omega),
      if_neg (by simp [CAP_1FOOT, CAP_2FOOT, List.length_drop]; omega),
      if_neg (by
        simp only [List.isEmpty_iff, ← List.length_eq_zero,
          List.length_drop, CAP_2FOOT]
        omega)]
    rfl

/-- Closed witness for `segment_trays_spec` at a one-piece group. -/
theorem segment_trays_spec_witness :
    ([sampleMp 94110 0 none] : List Mailpiece) ≠ [] ∧
    segment_trays BarcodeId.MixedAadc [sampleMp 94110 0 none] =
      [⟨"", TraySize.OneFoot, BarcodeId.MixedAadc, [sampleMp 94110 0 none]⟩] :=
  ⟨by decide,
    (segment_trays_spec BarcodeId.MixedAadc [sampleMp 94110 0 none]
      (by decide)).1 (by decide)⟩

/-- C4: the code violates the claim — presorting an empty list of
mailpieces produces one (empty) OneFoot MixedAadc tray named `A`, not
zero trays: `segment_trays` is called on the empty pooled MixedAadc
group and its `len() <= CAP_1FOOT` branch pushes a tray without checking
emptiness. -/
theorem presort_mailpieces_nil :
    presort_mailpieces [] =
      [⟨"A", TraySize.OneFoot, BarcodeId.MixedAadc, []⟩] := by
  decide

/-! ### Grouping by zip5 (`presort_mailpieces`) -/

theorem chunkByZip5_ne_nil (l : List Mailpiece) :
    ∀ g ∈ chunkByZip5 l, g ≠ [] := by
  induction l using chunkByZip5.induct with
  | case1 =>
    simp [chunkByZip5]
  | case2 mp rest heq ih =>
    intro g hg
    simp only [chunkByZip5, heq] at hg
    rcases List.mem_singleton.mp hg with rfl
    simp
  | case3 mp rest gs heq ih =>
    exact absurd rfl (ih [] (heq ▸ List.mem_cons_self [] gs))
  | case4 mp rest mp2 g0 gs heq hz ih =>
    intro g hg
    simp only [chunkByZip5, heq, if_pos hz] at hg
    rcases List.mem_cons.mp hg with rfl | hg
    · simp
    · exact ih g (heq ▸ List.mem_cons_of_mem _ hg)
  | case5 mp rest mp2 g0 gs heq hz ih =>
    intro g hg
    simp only [chunkByZip5, heq, if_neg hz] at hg
    rcases List.mem_cons.mp hg with rfl | hg
    · simp
    · exact ih g (heq ▸ hg)

theorem chunkByZip5_flatten (l : List Mailpiece) :
    (chunkByZip5 l).flatten = l := by
  induction l using chunkByZip5.induct with
  | case1 => rfl
  | case2 mp rest heq ih =>
    have hr : rest = [] := by
      rw [heq] at ih
      simpa using ih.symm
    simp [chunkByZip5, heq, hr]
  | case3 mp rest gs heq ih =>
    exact absurd rfl
      ((chunkByZip5_ne_nil rest) [] (heq ▸ List.mem_cons_self [] gs))
  | case4 mp rest mp2 g0 gs heq hz ih =>
    rw [heq] at ih
    simp only [chunkByZip5, heq, if_pos hz, List.flatten_cons]
    simp only [List.flatten_cons] at ih
    simp [ih]
  | case5 mp rest mp2 g0 gs heq hz ih =>
    rw [heq] at ih
    simp only [chunkByZip5, heq, if_neg hz, List.flatten_cons]
    simp only [List.flatten_cons] at ih
    simp [ih]

theorem chunkByZip5_const (l : List Mailpiece) :
    ∀ g ∈ chunkByZip5 l, ∀ a ∈ g, ∀ b ∈ g, a.zip5 = b.zip5 := by
  induction l using chunkByZip5.induct with
  | case1 =>
    simp [chunkByZip5]
  | case2 mp rest heq ih =>
    intro g hg
    simp only [chunkByZip5, heq] at hg
    rcases List.mem_singleton.mp hg with rfl
    intro a ha b hb
    rcases List.mem_singleton.mp ha with rfl
    rcases List.mem_singleton.mp hb with rfl
    rfl
  | case3 mp rest gs heq ih =>
    exact absurd rfl
      ((chunkByZip5_ne_nil rest) [] (heq ▸ List.mem_cons_self [] gs))
  | case4 mp rest mp2 g0 gs heq hz ih =>
    intro g hg
    simp only [chunkByZip5, heq, if_pos hz] at hg
    rcases List.mem_cons.mp hg with rfl | hg
    · have hg2 := ih (mp2 :: g0) (heq ▸ List.mem_cons_self _ gs)
      intro a ha b hb
      have key : ∀ c ∈ mp :: mp2 :: g0, c.zip5 = mp2.zip5 := by
        intro c hc
        rcases List.mem_cons.mp hc with rfl | hc
        · exact hz
        · exact hg2 c hc mp2 (List.mem_cons_self mp2 g0)
      rw [key a ha, key b hb]
    · exact ih g (heq ▸ List.mem_cons_of_mem _ hg)
  | case5 mp rest mp2 g0 gs heq hz ih =>
    intro g hg
    simp only [chunkByZip5, heq, if_neg hz] at hg
    rcases List.mem_cons.mp hg with rfl | hg
    · intro a ha b hb
      rcases List.mem_singleton.mp ha with rfl
      rcases List.mem_singleton.mp hb with rfl
      rfl
    · exact ih g (heq ▸ hg)

theorem chunkByZip5_pairwise (l : List Mailpiece) (hs : List.Sorted zip5Order l) :
    (chunkByZip5 l).Pairwise
      (fun g h => ∀ a ∈ g, ∀ b ∈ h, a.zip5 < b.zip5) := by
  induction l using chunkByZip5.induct with
  | case1 =>
    simp [chunkByZip5]
  | case2 mp rest heq ih =>
    simp [chunkByZip5, heq]
  | case3 mp rest gs heq ih =>
    exact absurd rfl
      ((chunkByZip5_ne_nil rest) [] (heq ▸ List.mem_cons_self [] gs))
  | case4 mp rest mp2 g0 gs heq hz ih =>
    have hrest := ih hs.of_cons
    rw [heq] at hrest
    have hrel := List.rel_of_sorted_cons hs
    simp only [chunkByZip5, heq, if_pos hz]
    rw [List.pairwise_cons] at hrest ⊢
    obtain ⟨h1, h2⟩ := hrest
    refine ⟨?_, h2⟩
    intro g' hg' a ha b hb
    rcases List.mem_cons.mp ha with rfl | ha
    · calc a.zip5 = mp2.zip5 := hz
        _ < b.zip5 := h1 g' hg' mp2 (List.mem_cons_self mp2 g0) b hb
    · exact h1 g' hg' a ha b hb
  | case5 mp rest mp2 g0 gs heq hz ih =>
    have hrest := ih hs.of_cons
    rw [heq] at hrest
    have hrel := List.rel_of_sorted_cons hs
    have hmem : ∀ g' ∈ (mp2 :: g0) :: gs, ∀ b ∈ g', b ∈ rest := by
      intro g' hg' b hb
      have : b ∈ (chunkByZip5 rest).flatten :=
        List.mem_flatten.mpr ⟨g', heq ▸ hg', hb⟩
      rwa [chunkByZip5_flatten] at this
    have hconst := chunkByZip5_const rest
    rw [heq] at hconst
    simp only [chunkByZip5, heq, if_neg hz]
    rw [List.pairwise_cons] at hrest ⊢
    obtain ⟨h1, h2⟩ := hrest
    refine ⟨?_, List.pairwise_cons.mpr ⟨h1, h2⟩⟩
    intro g' hg' a ha b hb
    rw [List.mem_singleton.mp ha]
    rcases List.mem_cons.mp hg' with rfl | hg'
    · have hbz : b.zip5 = mp2.zip5 :=
        hconst (mp2 :: g0) (List.mem_cons_self _ gs) b hb mp2
          (List.mem_cons_self mp2 g0)
      have hle : mp.zip5 ≤ mp2.zip5 :=
        hrel mp2 (hmem _ (List.mem_cons_self _ gs) mp2 (List.mem_cons_self mp2 g0))
      rw [hbz]
      exact lt_of_le_of_ne hle hz
    · have hlt : mp2.zip5 < b.zip5 :=
        h1 g' hg' mp2 (List.mem_cons_self mp2 g0) b hb
      have hle : mp.zip5 ≤ mp2.zip5 :=
        hrel mp2 (hmem _ (List.mem_cons_self _ gs) mp2 (List.mem_cons_self mp2 g0))
      exact lt_of_le_of_lt hle hlt

/-- In a list of non-empty constant-zip groups with strictly increasing
zips between groups, filtering the flattening by one group's zip gives
exactly that group. -/
theorem flatten_filter_eq_group (gs : List (List Mailpiece))
    (hconst : ∀ g ∈ gs, ∀ a ∈ g, ∀ b ∈ g, a.zip5 = b.zip5)
    (hpw : gs.Pairwise (fun g h => ∀ a ∈ g, ∀ b ∈ h, a.zip5 < b.zip5)) :
    ∀ g ∈ gs, ∀ a ∈ g,
      gs.flatten.filter (fun x => x.zip5 == a.zip5) = g := by
  revert hconst hpw
  induction gs with
  | nil =>
    intro _ _
    simp
  | cons g0 gs ih =>
    intro hconst hpw
    rw [List.pairwise_cons] at hpw
    obtain ⟨h1, h2⟩ := hpw
    intro g hg a ha
    rcases List.mem_cons.mp hg with rfl | hg
    · rw [List.flatten_cons, List.filter_append]
      have hf1 : g.filter (fun x => x.zip5 == a.zip5) = g := by
        rw [List.filter_eq_self]
        intro b hb
        simpa using hconst g (List.mem_cons_self g gs) b hb a ha
      have hf2 : gs.flatten.filter (fun x => x.zip5 == a.zip5) = [] := by
        rw [List.filter_eq_nil_iff]
        intro b hb
        obtain ⟨g', hg', hbg⟩ := List.mem_flatten.mp hb
        have : a.zip5 < b.zip5 := h1 g' hg' a ha b hbg
        simp
        omega
      rw [hf1, hf2, List.append_nil]
    · rw [List.flatten_cons, List.filter_append]
      have hf0 : g0.filter (fun x => x.zip5 == a.zip5) = [] := by
        rw [List.filter_eq_nil_iff]
        intro b hb
        have : b.zip5 < a.zip5 := h1 g hg b hb a ha
        simp
        omega
      rw [hf0, List.nil_append]
      exact ih (fun g' h => hconst g' (List.mem_cons_of_mem g0 h)) h2 g hg a ha

/-! ### Presort structure (`presort_mailpieces`) -/

theorem nameTraysFrom_map_mailpieces (c : Nat) (ts : List MailTray) :
    (nameTraysFrom c ts).map (fun t => t.mailpieces) =
      ts.map (fun t => t.mailpieces) := by
  induction ts generalizing c with
  | nil => rfl
  | cons t ts ih => simp [nameTraysFrom, ih]

theorem nameTraysFrom_mem (c : Nat) (ts : List MailTray) :
    ∀ t' ∈ nameTraysFrom c ts, ∃ t ∈ ts,
      t'.size = t.size ∧ t'.barcode_id = t.barcode_id ∧
      t'.mailpieces = t.mailpieces := by
  induction ts generalizing c with
  | nil => simp [nameTraysFrom]
  | cons t ts ih =>
    intro t' ht'
    rcases List.mem_cons.mp ht' with rfl | ht'
    · exact ⟨t, List.mem_cons_self t ts, rfl, rfl, rfl⟩
    · obtain ⟨t0, ht0, he⟩ := ih (c + 1) t' ht'
      exact ⟨t0, List.mem_cons_of_mem t ht0, he⟩

theorem nameTraysFrom_mem_rev (c : Nat) (ts : List MailTray) :
    ∀ t ∈ ts, ∃ t' ∈ nameTraysFrom c ts,
      t'.size = t.size ∧ t'.barcode_id = t.barcode_id ∧
      t'.mailpieces = t.mailpieces := by
  induction ts generalizing c with
  | nil => simp
  | cons t0 ts ih =>
    intro t ht
    rcases List.mem_cons.mp ht with rfl | ht
    · exact ⟨_, List.mem_cons_self _ _, rfl, rfl, rfl⟩
    · obtain ⟨t', ht', he⟩ := ih (c + 1) t ht
      exact ⟨t', List.mem_cons_of_mem _ ht', he⟩

theorem nameTraysFrom_filter_barcode (c : Nat) (ts : List MailTray)
    (b : BarcodeId) :
    ((nameTraysFrom c ts).filter (fun t => t.barcode_id == b)).map
        (fun t => t.mailpieces) =
      (ts.filter (fun t => t.barcode_id == b)).map (fun t => t.mailpieces) := by
  induction ts generalizing c with
  | nil => rfl
  | cons t ts ih =>
    simp only [nameTraysFrom, List.filter_cons]
    by_cases hb : t.barcode_id == b
    · simp only [hb]
      simp [ih]
    · simp only [Bool.not_eq_true] at hb
      simp only [hb]
      simp [ih]

theorem flatMap_segment_flatten (b : BarcodeId) (gs : List (List Mailpiece)) :
    ((gs.flatMap (segment_trays b)).map (fun t => t.mailpieces)).flatten =
      gs.flatten := by
  induction gs with
  | nil => rfl
  | cons g gs ih =>
    simp only [List.flatMap_cons, List.map_append, List.flatten_append,
      List.flatten_cons, ih, segment_trays_flatten]

theorem presort_flatten_perm (mps : List Mailpiece) :
    ((presort_mailpieces mps).map (fun t => t.mailpieces)).flatten.Perm mps := by
  show ((nameTraysFrom 65 _).map (fun t => t.mailpieces)).flatten.Perm mps
  rw [nameTraysFrom_map_mailpieces, List.map_append, List.flatten_append,
    flatMap_segment_flatten, segment_trays_flatten]
  rw [show ((chunkByZip5 (List.insertionSort zip5Order mps)).filter
      (fun g => ¬ PRESORT_MIN ≤ g.length)).flatMap (fun g => g) =
      ((chunkByZip5 (List.insertionSort zip5Order mps)).filter
        (fun g => ¬ PRESORT_MIN ≤ g.length)).flatten from by
    simp [List.flatMap_def]]
  rw [show (fun g : List Mailpiece => decide (¬ PRESORT_MIN ≤ g.length)) =
      (fun g : List Mailpiece => !(decide (PRESORT_MIN ≤ g.length))) from by
    funext g
    by_cases h : PRESORT_MIN ≤ g.length <;> simp [h]]
  rw [← List.flatten_append]
  refine List.Perm.trans (List.Perm.flatten (List.filter_append_perm _ _)) ?_
  rw [chunkByZip5_flatten]
  exact List.perm_insertionSort zip5Order mps

/-- Unfolding of `presort_mailpieces`. -/
theorem presort_mailpieces_def (mps : List Mailpiece) :
    presort_mailpieces mps =
      nameTraysFrom 65
        ((((chunkByZip5 (List.insertionSort zip5Order mps)).filter
            (fun g => PRESORT_MIN ≤ g.length)).flatMap
          (segment_trays BarcodeId.FiveDigit)) ++
        segment_trays BarcodeId.MixedAadc
          (((chunkByZip5 (List.insertionSort zip5Order mps)).filter
            (fun g => ¬ PRESORT_MIN ≤ g.length)).flatMap (fun g => g))) := rfl

/-- The number of pieces of `mp`'s zip in the input equals the length of
the chunk group containing `mp`. -/
theorem presort_countP_eq (mps : List Mailpiece) (g : List Mailpiece)
    (hg : g ∈ chunkByZip5 (List.insertionSort zip5Order mps))
    (mp : Mailpiece) (hmp : mp ∈ g) :
    mps.countP (fun x => x.zip5 == mp.zip5) = g.length := by
  have hs : List.Sorted zip5Order (List.insertionSort zip5Order mps) :=
    List.sorted_insertionSort zip5Order mps
  have hfil := flatten_filter_eq_group _ (chunkByZip5_const _)
    (chunkByZip5_pairwise _ hs) g hg mp hmp
  rw [chunkByZip5_flatten] at hfil
  calc mps.countP (fun x => x.zip5 == mp.zip5)
      = (List.insertionSort zip5Order mps).countP
          (fun x => x.zip5 == mp.zip5) :=
        ((List.perm_insertionSort zip5Order mps).countP_eq
          (fun x => x.zip5 == mp.zip5)).symm
    _ = ((List.insertionSort zip5Order mps).filter
          (fun x => x.zip5 == mp.zip5)).length :=
        List.countP_eq_length_filter _ _
    _ = g.length := by rw [hfil]

/-- Every presorted tray is either a FiveDigit or a MixedAadc tray, and
its pieces come from the input list. -/
theorem presort_mem_case (mps : List Mailpiece) :
    ∀ t' ∈ presort_mailpieces mps, ∃ t,
      (t ∈ ((chunkByZip5 (List.insertionSort zip5Order mps)).filter
          (fun g => PRESORT_MIN ≤ g.length)).flatMap
        (segment_trays BarcodeId.FiveDigit) ∨
       t ∈ segment_trays BarcodeId.MixedAadc
        (((chunkByZip5 (List.insertionSort zip5Order mps)).filter
          (fun g => ¬ PRESORT_MIN ≤ g.length)).flatMap (fun g => g))) ∧
      t'.barcode_id = t.barcode_id ∧ t'.mailpieces = t.mailpieces := by
  intro t' ht'
  rw [presort_mailpieces_def] at ht'
  obtain ⟨t, ht, _, hbar, hmps⟩ := nameTraysFrom_mem 65 _ t' ht'
  exact ⟨t, List.mem_append.mp ht, hbar, hmps⟩

theorem presort_barcode_cases (mps : List Mailpiece) :
    ∀ t ∈ presort_mailpieces mps,
      t.barcode_id = BarcodeId.FiveDigit ∨
      t.barcode_id = BarcodeId.MixedAadc := by
  intro t' ht'
  obtain ⟨t, hcase, hbar, _⟩ := presort_mem_case mps t' ht'
  rcases hcase with htf | htm
  · obtain ⟨g, _, htg⟩ := List.mem_flatMap.mp htf
    exact Or.inl (hbar ▸ segment_trays_barcode _ g t htg)
  · exact Or.inr (hbar ▸ segment_trays_barcode _ _ t htm)

/-- Pieces of a MixedAadc tray come from groups below `PRESORT_MIN`. -/
theorem presort_mixed_small (mps : List Mailpiece) :
    ∀ t ∈ presort_mailpieces mps, t.barcode_id = BarcodeId.MixedAadc →
      ∀ mp ∈ t.mailpieces,
        mps.countP (fun x => x.zip5 == mp.zip5) < PRESORT_MIN := by
  intro t' ht' hb mp hmp
  obtain ⟨t, hcase, hbar, hmps⟩ := presort_mem_case mps t' ht'
  rcases hcase with htf | htm
  · obtain ⟨g, _, htg⟩ := List.mem_flatMap.mp htf
    exact absurd (hbar ▸ segment_trays_barcode _ g t htg)
      (by rw [hb]; simp)
  · have hsub := (segment_trays_sub _ _ t htm).subset
    rw [hmps] at hmp
    obtain ⟨g, hgf, hmpg⟩ := List.mem_flatMap.mp (hsub hmp)
    obtain ⟨hggs, hdec⟩ := List.mem_filter.mp hgf
    have hglen : ¬ PRESORT_MIN ≤ g.length := of_decide_eq_true hdec
    rw [presort_countP_eq mps g hggs mp hmpg]
    omega

/-- Every piece of a presorted tray appears in the input list. -/
theorem presort_tray_mem_input (mps : List Mailpiece) :
    ∀ t ∈ presort_mailpieces mps, ∀ mp ∈ t.mailpieces, mp ∈ mps := by
  intro t ht mp hmp
  have hfl : mp ∈ ((presort_mailpieces mps).map
      (fun t => t.mailpieces)).flatten :=
    List.mem_flatten.mpr ⟨t.mailpieces, List.mem_map_of_mem _ ht, hmp⟩
  exact (presort_flatten_perm mps).mem_iff.mp hfl

/-- C1: after sorting by zip5, a maximal equal-zip5 group becomes
FiveDigit trays exactly when it has at least `PRESORT_MIN = 200` pieces;
all pieces of smaller groups are pooled into the single MixedAadc group;
every mailpiece of a FiveDigit tray shares that tray's zip5; 199
same-zip pieces presort as MixedAadc while 200 presort as FiveDigit. -/
theorem presort_mailpieces_grouping (mps : List Mailpiece) :
    (∀ t ∈ presort_mailpieces mps,
      t.barcode_id = BarcodeId.FiveDigit ∨
      t.barcode_id = BarcodeId.MixedAadc) ∧
    (∀ t ∈ presort_mailpieces mps, t.barcode_id = BarcodeId.FiveDigit →
      ∀ mp ∈ t.mailpieces,
        (∀ mp2 ∈ t.mailpieces, mp2.zip5 = mp.zip5) ∧
        PRESORT_MIN ≤ mps.countP (fun x => x.zip5 == mp.zip5)) ∧
    (∀ t ∈ presort_mailpieces mps, t.barcode_id = BarcodeId.MixedAadc →
      ∀ mp ∈ t.mailpieces,
        mps.countP (fun x => x.zip5 == mp.zip5) < PRESORT_MIN) ∧
    (∀ mp ∈ mps, mps.countP (fun x => x.zip5 == mp.zip5) < PRESORT_MIN →
      ∃ t ∈ presort_mailpieces mps,
        t.barcode_id = BarcodeId.MixedAadc ∧ mp ∈ t.mailpieces) ∧
    (∀ mp ∈ mps, PRESORT_MIN ≤ mps.countP (fun x => x.zip5 == mp.zip5) →
      ∃ t ∈ presort_mailpieces mps,
        t.barcode_id = BarcodeId.FiveDigit ∧ mp ∈ t.mailpieces) ∧
    (mps.length = 199 → (∀ a ∈ mps, ∀ b ∈ mps, a.zip5 = b.zip5) →
      ∀ t ∈ presort_mailpieces mps, ∀ mp ∈ t.mailpieces,
        t.barcode_id = BarcodeId.MixedAadc) ∧
    (mps.length = 200 → (∀ a ∈ mps, ∀ b ∈ mps, a.zip5 = b.zip5) →
      ∀ t ∈ presort_mailpieces mps, ∀ mp ∈ t.mailpieces,
        t.barcode_id = BarcodeId.FiveDigit) := by
  have hmem_case := presort_mem_case mps
  have h1 := presort_barcode_cases mps
  have h2 : ∀ t ∈ presort_mailpieces mps,
      t.barcode_id = BarcodeId.FiveDigit →
      ∀ mp ∈ t.mailpieces,
        (∀ mp2 ∈ t.mailpieces, mp2.zip5 = mp.zip5) ∧
        PRESORT_MIN ≤ mps.countP (fun x => x.zip5 == mp.zip5) := by
    intro t' ht' hb mp hmp
    obtain ⟨t, hcase, hbar, hmps⟩ := hmem_case t' ht'
    rcases hcase with htf | htm
    · obtain ⟨g, hgf, htg⟩ := List.mem_flatMap.mp htf
      obtain ⟨hggs, hdec⟩ := List.mem_filter.mp hgf
      have hglen : PRESORT_MIN ≤ g.length := of_decide_eq_true hdec
      have hsub := (segment_trays_sub _ g t htg).subset
      rw [hmps] at hmp
      have hmpg : mp ∈ g := hsub hmp
      constructor
      · intro mp2 hmp2
        rw [hmps] at hmp2
        exact chunkByZip5_const _ g hggs mp2 (hsub hmp2) mp hmpg
      · rw [presort_countP_eq mps g hggs mp hmpg]
        exact hglen
    · exact absurd (hbar ▸ segment_trays_barcode _ _ t htm)
        (by rw [hb]; simp)
  have h3 := presort_mixed_small mps
  have h4 : ∀ mp ∈ mps,
      mps.countP (fun x => x.zip5 == mp.zip5) < PRESORT_MIN →
      ∃ t ∈ presort_mailpieces mps,
        t.barcode_id = BarcodeId.MixedAadc ∧ mp ∈ t.mailpieces := by
    intro mp hmp hcnt
    have hml : mp ∈ List.insertionSort zip5Order mps :=
      ((List.perm_insertionSort zip5Order mps).mem_iff).mpr hmp
    rw [← chunkByZip5_flatten (List.insertionSort zip5Order mps)] at hml
    obtain ⟨g, hggs, hmpg⟩ := List.mem_flatten.mp hml
    have hcg := presort_countP_eq mps g hggs mp hmpg
    have hgsmall : ¬ PRESORT_MIN ≤ g.length := by omega
    have hgf : g ∈ (chunkByZip5 (List.insertionSort zip5Order mps)).filter
        (fun g => ¬ PRESORT_MIN ≤ g.length) :=
      List.mem_filter.mpr ⟨hggs, decide_eq_true hgsmall⟩
    have hpool : mp ∈ ((chunkByZip5 (List.insertionSort zip5Order mps)).filter
        (fun g => ¬ PRESORT_MIN ≤ g.length)).flatMap (fun g => g) :=
      List.mem_flatMap.mpr ⟨g, hgf, hmpg⟩
    obtain ⟨t, htm, hmpt⟩ := segment_trays_cover BarcodeId.MixedAadc _ mp hpool
    obtain ⟨t', ht', _, hbar, hmps⟩ := nameTraysFrom_mem_rev 65 _ t
      (List.mem_append_right _ htm)
    refine ⟨t', ?_, ?_, ?_⟩
    · rw [presort_mailpieces_def]
      exact ht'
    · rw [hbar]
      exact segment_trays_barcode _ _ t htm
    · rw [hmps]
      exact hmpt
  have h5 : ∀ mp ∈ mps,
      PRESORT_MIN ≤ mps.countP (fun x => x.zip5 == mp.zip5) →
      ∃ t ∈ presort_mailpieces mps,
        t.barcode_id = BarcodeId.FiveDigit ∧ mp ∈ t.mailpieces := by
    intro mp hmp hcnt
    have hml : mp ∈ List.insertionSort zip5Order mps :=
      ((List.perm_insertionSort zip5Order mps).mem_iff).mpr hmp
    rw [← chunkByZip5_flatten (List.insertionSort zip5Order mps)] at hml
    obtain ⟨g, hggs, hmpg⟩ := List.mem_flatten.mp hml
    have hcg := presort_countP_eq mps g hggs mp hmpg
    have hgbig : PRESORT_MIN ≤ g.length := by omega
    have hgf : g ∈ (chunkByZip5 (List.insertionSort zip5Order mps)).filter
        (fun g => PRESORT_MIN ≤ g.length) :=
      List.mem_filter.mpr ⟨hggs, decide_eq_true hgbig⟩
    obtain ⟨t, htg, hmpt⟩ := segment_trays_cover BarcodeId.FiveDigit g mp hmpg
    have htf : t ∈ ((chunkByZip5 (List.insertionSort zip5Order mps)).filter
        (fun g => PRESORT_MIN ≤ g.length)).flatMap
          (segment_trays BarcodeId.FiveDigit) :=
      List.mem_flatMap.mpr ⟨g, hgf, htg⟩
    obtain ⟨t', ht', _, hbar, hmps⟩ := nameTraysFrom_mem_rev 65 _ t
      (List.mem_append_left _ htf)
    refine ⟨t', ?_, ?_, ?_⟩
    · rw [presort_mailpieces_def]
      exact ht'
    · rw [hbar]
      exact segment_trays_barcode _ g t htg
    · rw [hmps]
      exact hmpt
  have hmem_of_tray := presort_tray_mem_input mps
  have h6 : mps.length = 199 → (∀ a ∈ mps, ∀ b ∈ mps, a.zip5 = b.zip5) →
      ∀ t ∈ presort_mailpieces mps, ∀ mp ∈ t.mailpieces,
        t.barcode_id = BarcodeId.MixedAadc := by
    intro hlen _ t ht mp hmp
    rcases h1 t ht with h5d | hmx
    · have hc := (h2 t ht h5d mp hmp).2
      have hle : mps.countP (fun x => x.zip5 == mp.zip5) ≤ mps.length :=
        List.countP_le_length _
      rw [hlen] at hle
      exact absurd hc (by unfold PRESORT_MIN; omega)
    · exact hmx
  have h7 : mps.length = 200 → (∀ a ∈ mps, ∀ b ∈ mps, a.zip5 = b.zip5) →
      ∀ t ∈ presort_mailpieces mps, ∀ mp ∈ t.mailpieces,
        t.barcode_id = BarcodeId.FiveDigit := by
    intro hlen hzz t ht mp hmp
    rcases h1 t ht with h5d | hmx
    · exact h5d
    · have hc := h3 t ht hmx mp hmp
      have hmpm : mp ∈ mps := hmem_of_tray t ht mp hmp
      have hall : mps.countP (fun x => x.zip5 == mp.zip5) = mps.length :=
        List.countP_eq_length.mpr
          (fun a ha => by simpa using hzz a ha mp hmpm)
      rw [hall, hlen] at hc
      exact absurd hc (by unfold PRESORT_MIN; omega)
  exact ⟨h1, h2, h3, h4, h5, h6, h7⟩

/-- Closed witness for `presort_mailpieces_grouping`: a single piece at
zip 94110 is below `PRESORT_MIN` and lands in a MixedAadc tray. -/
theorem presort_mailpieces_grouping_witness :
    (sampleMp 94110 0 none ∈ ([sampleMp 94110 0 none] : List Mailpiece)) ∧
    ([sampleMp 94110 0 none] : List Mailpiece).countP
      (fun x => x.zip5 == (sampleMp 94110 0 none).zip5) < PRESORT_MIN ∧
    ∃ t ∈ presort_mailpieces [sampleMp 94110 0 none],
      t.barcode_id = BarcodeId.MixedAadc ∧
      sampleMp 94110 0 none ∈ t.mailpieces :=
  ⟨by decide, by decide,
    (presort_mailpieces_grouping [sampleMp 94110 0 none]).2.2.2.1
      (sampleMp 94110 0 none) (by decide) (by decide)⟩

/-! ### Mailing totals (C8) -/

theorem assign_from_length (base : Nat) (l : List Mailpiece) :
    (assign_from base l).length = l.length := by
  induction l generalizing base with
  | nil => rfl
  | cons mp rest ih => simp [assign_from, ih]

theorem assign_ids_length (base : Nat) (mps : List Mailpiece) :
    (assign_ids base mps).length = mps.length := by
  rw [assign_ids, assign_from_length, List.length_insertionSort]

theorem assign_from_map_zip5 (base : Nat) (l : List Mailpiece) :
    (assign_from base l).map (fun mp => mp.zip5) =
      l.map (fun mp => mp.zip5) := by
  induction l generalizing base with
  | nil => rfl
  | cons mp rest ih => simp [assign_from, ih]

/-- Every element of `assign_ids base mps` has the zip5 of some input
mailpiece. -/
theorem assign_ids_zip5_mem (base : Nat) (mps : List Mailpiece) :
    ∀ x ∈ assign_ids base mps, ∃ y ∈ mps, x.zip5 = y.zip5 := by
  intro x hx
  have hz : x.zip5 ∈ (assign_from base
      (List.insertionSort keyOrder mps)).map (fun mp => mp.zip5) :=
    List.mem_map_of_mem _ hx
  rw [assign_from_map_zip5] at hz
  obtain ⟨y, hy, hyz⟩ := List.mem_map.mp hz
  exact ⟨y, (List.perm_insertionSort keyOrder mps).mem_iff.mp hy, hyz.symm⟩

/-- Splitting the piece count of a FiveDigit/MixedAadc tray list into the
two rate categories. -/
theorem tray_sum_split (ts : List MailTray)
    (h : ∀ t ∈ ts, t.barcode_id = BarcodeId.FiveDigit ∨
      t.barcode_id = BarcodeId.MixedAadc) :
    ((ts.filter (fun t => t.barcode_id == BarcodeId.FiveDigit)).map
      (fun t => t.mailpieces.length)).sum +
    ((ts.filter (fun t => t.barcode_id == BarcodeId.MixedAadc)).map
      (fun t => t.mailpieces.length)).sum =
    (ts.map (fun t => t.mailpieces.length)).sum := by
  induction ts with
  | nil => rfl
  | cons t ts ih =>
    have iht := ih (fun t' ht' => h t' (List.mem_cons_of_mem t ht'))
    rcases h t (List.mem_cons_self t ts) with hb | hb <;>
      simp [List.filter_cons, hb] <;> omega

/-- Total pieces over all presorted trays equals the input length. -/
theorem presort_total_pieces (mps : List Mailpiece) :
    ((presort_mailpieces mps).map (fun t => t.mailpieces.length)).sum =
      mps.length := by
  have hp := (presort_flatten_perm mps).length_eq
  rw [List.length_flatten] at hp
  rw [← hp, List.map_map]
  rfl

/-- C8: for a freshly built mailing, `five_dig_cnt + mixed_aadc_cnt =
mailpiece_cnt`; the postage subtotals are the counts times 0.173 and
0.208 and `part_a_subtotal` is their sum, all within 0.0001; 600
same-zip pieces give `five_dig_cnt = 600` and `part_a_subtotal =
103.80`. -/
theorem mailing_totals_spec (last_id : Nat) (mps : List Mailpiece)
    (hlen : mps.length < 2 ^ 16) :
    (five_dig_cnt (mailing_trays last_id mps) +
      mixed_aadc_cnt (mailing_trays last_id mps) = mailpiece_cnt mps) ∧
    (|postage_subtotal_five_dig (mailing_trays last_id mps) -
      (five_dig_cnt (mailing_trays last_id mps) : ℚ) * 0.173| ≤ 0.0001) ∧
    (|postage_subtotal_mixed_aadc (mailing_trays last_id mps) -
      (mixed_aadc_cnt (mailing_trays last_id mps) : ℚ) * 0.208| ≤ 0.0001) ∧
    (|part_a_subtotal (mailing_trays last_id mps) -
      ((five_dig_cnt (mailing_trays last_id mps) : ℚ) * 0.173 +
       (mixed_aadc_cnt (mailing_trays last_id mps) : ℚ) * 0.208)| ≤ 0.0001) ∧
    (mps.length = 600 → (∀ a ∈ mps, ∀ b ∈ mps, a.zip5 = b.zip5) →
      five_dig_cnt (mailing_trays last_id mps) = 600 ∧
      part_a_subtotal (mailing_trays last_id mps) = 103.80) := by
  set L := assign_ids (last_id + 1) mps with hL
  have hMT : mailing_trays last_id mps = presort_mailpieces L := rfl
  rw [hMT]
  have hLlen : L.length = mps.length := assign_ids_length _ _
  have hsplit := tray_sum_split (presort_mailpieces L)
    (presort_barcode_cases L)
  have htot : ((presort_mailpieces L).map
      (fun t => t.mailpieces.length)).sum = mps.length := by
    rw [presort_total_pieces, hLlen]
  set A := (((presort_mailpieces L).filter
    (fun t => t.barcode_id == BarcodeId.FiveDigit)).map
    (fun t => t.mailpieces.length)).sum with hA
  set B := (((presort_mailpieces L).filter
    (fun t => t.barcode_id == BarcodeId.MixedAadc)).map
    (fun t => t.mailpieces.length)).sum with hB
  have hAB : A + B = mps.length := by
    rw [hsplit]
    exact htot
  have hAcnt : five_dig_cnt (presort_mailpieces L) = A := by
    show A % 2 ^ 16 = A
    exact Nat.mod_eq_of_lt (by omega)
  have hBcnt : mixed_aadc_cnt (presort_mailpieces L) = B := by
    show B % 2 ^ 16 = B
    exact Nat.mod_eq_of_lt (by omega)
  refine ⟨?_, ?_, ?_, ?_, ?_⟩
  · rw [hAcnt, hBcnt, hAB]
    show mps.length = mps.length % 2 ^ 16
    exact (Nat.mod_eq_of_lt hlen).symm
  · simp [postage_subtotal_five_dig, PRC_FIVE_DIG]
    norm_num
  · simp [postage_subtotal_mixed_aadc, PRC_MIXED_AADC]
    norm_num
  · simp [part_a_subtotal, postage_subtotal_five_dig,
      postage_subtotal_mixed_aadc, PRC_FIVE_DIG, PRC_MIXED_AADC]
    norm_num
  · intro h600 hzz
    have hB0 : B = 0 := by
      apply List.sum_eq_zero
      intro n hn
      obtain ⟨t, htf, rfl⟩ := List.mem_map.mp hn
      obtain ⟨ht, hdec⟩ := List.mem_filter.mp htf
      have hbm : t.barcode_id = BarcodeId.MixedAadc := by
        have := of_decide_eq_true (by exact hdec)
        exact this
      simp only [List.length_eq_zero]
      by_contra hne
      obtain ⟨mp, hmp⟩ := List.exists_mem_of_ne_nil _ hne
      have hsmall := presort_mixed_small L t ht hbm mp hmp
      have hmpL : mp ∈ L := presort_tray_mem_input L t ht mp hmp
      have hallz : ∀ x ∈ L, x.zip5 = mp.zip5 := by
        intro x hx
        obtain ⟨y, hy, hxy⟩ := assign_ids_zip5_mem _ _ x hx
        obtain ⟨y2, hy2, hxy2⟩ := assign_ids_zip5_mem _ _ mp hmpL
        rw [hxy, hxy2]
        exact hzz y hy y2 hy2
      have hcall : L.countP (fun x => x.zip5 == mp.zip5) = L.length :=
        List.countP_eq_length.mpr (fun a ha => by simp [hallz a ha])
      rw [hcall, hLlen, h600] at hsmall
      exact absurd hsmall (by unfold PRESORT_MIN; omega)
    have hA600 : A = 600 := by omega
    have e1 : five_dig_cnt (presort_mailpieces L) = 600 := by
      rw [hAcnt]
      exact hA600
    have e2 : mixed_aadc_cnt (presort_mailpieces L) = 0 := by
      rw [hBcnt]
      exact hB0
    constructor
    · exact e1
    · rw [part_a_subtotal, postage_subtotal_five_dig,
        postage_subtotal_mixed_aadc, e1, e2]
      norm_num [PRC_FIVE_DIG, PRC_MIXED_AADC]

/-- Closed witness for `mailing_totals_spec` at a one-piece mailing. -/
theorem mailing_totals_spec_witness :
    ([sampleMp 94110 0 none] : List Mailpiece).length < 2 ^ 16 ∧
    five_dig_cnt (mailing_trays 0 [sampleMp 94110 0 none]) +
      mixed_aadc_cnt (mailing_trays 0 [sampleMp 94110 0 none]) =
      mailpiece_cnt [sampleMp 94110 0 none] :=
  ⟨by decide,
    (mailing_totals_spec 0 [sampleMp 94110 0 none] (by decide)).1⟩

/-! ### Sort-key order and id assignment (C3) -/

theorem lexLeB_total : ∀ xs ys : List Char,
    lexLeB xs ys = true ∨ lexLeB ys xs = true := by
  intro xs
  induction xs with
  | nil =>
    intro ys
    left
    rfl
  | cons a as1 ih =>
    intro ys
    cases ys with
    | nil =>
      right
      rfl
    | cons b bs =>
      simp only [lexLeB]
      rcases Nat.lt_trichotomy a.toNat b.toNat with h | h | h
      · left
        rw [if_pos h]
      · rw [if_neg (by omega), if_neg (by omega), if_neg (by omega),
          if_neg (by omega)]
        exact ih bs
      · right
        rw [if_pos h]

theorem lexLeB_trans : ∀ xs ys zs : List Char,
    lexLeB xs ys = true → lexLeB ys zs = true → lexLeB xs zs = true := by
  intro xs
  induction xs with
  | nil =>
    intro ys zs _ _
    rfl
  | cons a as1 ih =>
    intro ys zs h1 h2
    cases ys with
    | nil => simp [lexLeB] at h1
    | cons b bs =>
      cases zs with
      | nil => simp [lexLeB] at h2
      | cons c cs =>
        simp only [lexLeB] at h1 h2 ⊢
        split_ifs at h1 h2 ⊢ <;>
          first
            | rfl
            | omega
            | (exact ih bs cs h1 h2)
            | simp_all

theorem digitChar_toNat (d : Nat) (hd : d < 10) :
    (digitChar d).toNat = 48 + d := by
  interval_cases d <;> rfl

/-- Byte-lexicographic comparison of two zero-padded `k`-digit numbers
followed by arbitrary tails agrees with numeric comparison. -/
theorem lexLeB_pad_append (k : Nat) : ∀ (m n : Nat), m < 10 ^ k →
    n < 10 ^ k → ∀ (q r : List Char),
    lexLeB (padDigits k m ++ q) (padDigits k n ++ r) =
      if m < n then true else if n < m then false else lexLeB q r := by
  induction k with
  | zero =>
    intro m n hm hn q r
    have h10 : (10 : Nat) ^ 0 = 1 := pow_zero 10
    have hm0 : m = 0 := by omega
    have hn0 : n = 0 := by omega
    subst hm0
    subst hn0
    simp [padDigits]
  | succ k ih =>
    intro m n hm hn q r
    have hP : 0 < 10 ^ k := pow_pos (by norm_num) k
    have hdm : m / 10 ^ k < 10 := Nat.div_lt_of_lt_mul (by
      rw [← pow_succ]
      exact hm)
    have hdn : n / 10 ^ k < 10 := Nat.div_lt_of_lt_mul (by
      rw [← pow_succ]
      exact hn)
    have hmr : m % 10 ^ k < 10 ^ k := Nat.mod_lt _ hP
    have hnr : n % 10 ^ k < 10 ^ k := Nat.mod_lt _ hP
    have hmd := Nat.div_add_mod m (10 ^ k)
    have hnd := Nat.div_add_mod n (10 ^ k)
    simp only [padDigits, List.cons_append, lexLeB, List.append_eq]
    rw [digitChar_toNat _ hdm, digitChar_toNat _ hdn]
    rcases Nat.lt_trichotomy (m / 10 ^ k) (n / 10 ^ k) with hlt | heq | hgt
    · have hmul : 10 ^ k * (m / 10 ^ k) + 10 ^ k ≤ 10 ^ k * (n / 10 ^ k) := by
        have hmm := Nat.mul_le_mul_left (10 ^ k) (Nat.succ_le_of_lt hlt)
        rw [Nat.mul_succ] at hmm
        exact hmm
      have hmn : m < n := by omega
      rw [if_pos (by omega), if_pos hmn]
    · have hmn1 : (m < n) = (m % 10 ^ k < n % 10 ^ k) := by
        rw [← heq] at hnd
        apply propext
        constructor <;> (intro hc; omega)
      have hmn2 : (n < m) = (n % 10 ^ k < m % 10 ^ k) := by
        rw [← heq] at hnd
        apply propext
        constructor <;> (intro hc; omega)
      rw [if_neg (by omega), if_neg (by omega),
        ih (m % 10 ^ k) (n % 10 ^ k) hmr hnr q r]
      simp only [hmn1, hmn2]
    · have hmul : 10 ^ k * (n / 10 ^ k) + 10 ^ k ≤ 10 ^ k * (m / 10 ^ k) := by
        have hmm := Nat.mul_le_mul_left (10 ^ k) (Nat.succ_le_of_lt hgt)
        rw [Nat.mul_succ] at hmm
        exact hmm
      have hnm : n < m := by omega
      rw [if_neg (by omega), if_pos (by omega), if_neg (by omega),
        if_pos hnm]

/-- Under the data-model bounds, the `(zip5, zip4)` string key order is
the numeric lexicographic order on the pair. -/
theorem keyOrder_iff (a b : Mailpiece)
    (ha5 : a.zip5 < 100000) (ha4 : a.zip4 < 10000)
    (hb5 : b.zip5 < 100000) (hb4 : b.zip4 < 10000) :
    keyOrder a b ↔
      (a.zip5 < b.zip5 ∨ (a.zip5 = b.zip5 ∧ a.zip4 ≤ b.zip4)) := by
  have h5 : lexLeB (padDigits 5 a.zip5 ++ padDigits 4 a.zip4)
      (padDigits 5 b.zip5 ++ padDigits 4 b.zip4) =
      if a.zip5 < b.zip5 then true else if b.zip5 < a.zip5 then false
        else lexLeB (padDigits 4 a.zip4) (padDigits 4 b.zip4) :=
    lexLeB_pad_append 5 a.zip5 b.zip5 (by norm_num; omega)
      (by norm_num; omega) _ _
  have h4 : lexLeB (padDigits 4 a.zip4 ++ []) (padDigits 4 b.zip4 ++ []) =
      if a.zip4 < b.zip4 then true else if b.zip4 < a.zip4 then false
        else lexLeB [] [] :=
    lexLeB_pad_append 4 a.zip4 b.zip4 (by norm_num; omega)
      (by norm_num; omega) [] []
  rw [List.append_nil, List.append_nil] at h4
  show lexLeB (padDigits 5 a.zip5 ++ padDigits 4 a.zip4)
      (padDigits 5 b.zip5 ++ padDigits 4 b.zip4) = true ↔ _
  rw [h5]
  split_ifs with hc1 hc2
  · simp
    omega
  · simp
    omega
  · rw [h4]
    split_ifs with hc3 hc4 <;> simp [lexLeB] <;> omega

theorem assign_from_map_id (base : Nat) (l : List Mailpiece)
    (hcap : base + l.length ≤ 2 ^ 32) :
    (assign_from base l).map (fun mp => mp.id) =
      List.range' base l.length := by
  induction l generalizing base with
  | nil => rfl
  | cons mp rest ih =>
    simp only [assign_from, List.map_cons, List.length_cons,
      List.range'_succ]
    rw [Nat.mod_eq_of_lt (show base < 2 ^ 32 by simp at hcap; omega),
      ih (base + 1) (by simp at hcap; omega)]

theorem assign_from_map_zips (base : Nat) (l : List Mailpiece) :
    (assign_from base l).map (fun mp => (mp.zip5, mp.zip4)) =
      l.map (fun mp => (mp.zip5, mp.zip4)) := by
  induction l generalizing base with
  | nil => rfl
  | cons mp rest ih => simp [assign_from, ih]

/-- Flattening a filtered list-of-lists is a sublist of flattening the
whole list. -/
theorem flatten_filter_sublist {α : Type} (p : List α → Bool)
    (gs : List (List α)) : (gs.filter p).flatten.Sublist gs.flatten := by
  induction gs with
  | nil => simp
  | cons g gs ih =>
    rw [List.filter_cons]
    by_cases hp : p g
    · rw [if_pos hp, List.flatten_cons, List.flatten_cons]
      exact List.Sublist.append_left ih g
    · rw [if_neg (by simpa using hp), List.flatten_cons]
      exact ih.trans (List.sublist_append_right g gs.flatten)

theorem flatMap_segment_barcode (b : BarcodeId)
    (gs : List (List Mailpiece)) :
    ∀ t ∈ gs.flatMap (segment_trays b), t.barcode_id = b := by
  intro t ht
  obtain ⟨g, _, htg⟩ := List.mem_flatMap.mp ht
  exact segment_trays_barcode b g t htg

/-- Filtering a tray list by a barcode all its members carry is the
identity. -/
theorem filter_barcode_all (ts : List MailTray) (b : BarcodeId)
    (h : ∀ t ∈ ts, t.barcode_id = b) :
    ts.filter (fun t => t.barcode_id == b) = ts := by
  rw [List.filter_eq_self]
  intro t ht
  simp [h t ht]

/-- Filtering a tray list by a barcode none of its members carry is
empty. -/
theorem filter_barcode_none (ts : List MailTray) (b b' : BarcodeId)
    (hne : ¬ b' = b) (h : ∀ t ∈ ts, t.barcode_id = b') :
    ts.filter (fun t => t.barcode_id == b) = [] := by
  rw [List.filter_eq_nil_iff]
  intro t ht
  simp [h t ht]
  exact hne

/-- A list whose first element is at least its last element (with two or
more elements) is not strictly increasing. -/
theorem not_pairwise_lt_of_head_last (l : List Nat) (a b : Nat)
    (h1 : l.head? = some a) (h2 : l.getLast? = some b) (hle : b ≤ a)
    (hlen : 2 ≤ l.length) : ¬ l.Pairwise (fun i j => i < j) := by
  cases l with
  | nil => simp at h1
  | cons x t =>
    cases t with
    | nil => simp at hlen
    | cons y t2 =>
      intro hp
      rw [List.pairwise_cons] at hp
      have hx : x = a := by simpa using h1
      rw [List.getLast?_cons_cons] at h2
      have hbm : b ∈ y :: t2 := List.mem_of_mem_getLast? h2
      have := hp.1 b hbm
      omega

/-- C3 (amended): in a freshly built mailing with in-range zips and no
id overflow, ids are assigned consecutively from `last_mailpiece_id + 1`
in ascending `(zip5, zip4)` order; the multiset of ids in the final
output order is exactly the contiguous range; and ids are strictly
increasing within the FiveDigit portion and within the MixedAADC portion
of the output — though not across the boundary between them (see the
counterexample `mailing_ids_not_increasing`). -/
theorem mailing_ids_spec (last_id : Nat) (mps : List Mailpiece)
    (hz : ∀ mp ∈ mps, mp.zip5 < 100000 ∧ mp.zip4 < 10000)
    (hcap : last_id + 1 + mps.length ≤ 2 ^ 32) :
    ((assign_ids (last_id + 1) mps).map (fun mp => mp.id) =
      List.range' (last_id + 1) mps.length) ∧
    ((assign_ids (last_id + 1) mps).map
      (fun mp => (mp.zip5, mp.zip4))).Pairwise
      (fun p q => p.1 < q.1 ∨ (p.1 = q.1 ∧ p.2 ≤ q.2)) ∧
    (output_ids (mailing_trays last_id mps)).Perm
      (List.range' (last_id + 1) mps.length) ∧
    (portion_ids BarcodeId.FiveDigit (mailing_trays last_id mps)).Pairwise
      (fun i j => i < j) ∧
    (portion_ids BarcodeId.MixedAadc (mailing_trays last_id mps)).Pairwise
      (fun i j => i < j) := by
  haveI : IsTotal Mailpiece keyOrder := ⟨fun a b => lexLeB_total _ _⟩
  haveI : IsTrans Mailpiece keyOrder := ⟨fun a b c => lexLeB_trans _ _ _⟩
  have hmemS : ∀ x ∈ List.insertionSort keyOrder mps, x ∈ mps :=
    fun x hx => (List.perm_insertionSort keyOrder mps).mem_iff.mp hx
  have hzS : ∀ x ∈ List.insertionSort keyOrder mps,
      x.zip5 < 100000 ∧ x.zip4 < 10000 :=
    fun x hx => hz x (hmemS x hx)
  have hsorted : (List.insertionSort keyOrder mps).Pairwise keyOrder :=
    List.sorted_insertionSort keyOrder mps
  have hpairS : (List.insertionSort keyOrder mps).Pairwise
      (fun a b => a.zip5 < b.zip5 ∨ (a.zip5 = b.zip5 ∧ a.zip4 ≤ b.zip4)) :=
    hsorted.imp_of_mem (fun ha hb hk =>
      (keyOrder_iff _ _ (hzS _ ha).1 (hzS _ ha).2
        (hzS _ hb).1 (hzS _ hb).2).mp hk)
  have h1 : (assign_ids (last_id + 1) mps).map (fun mp => mp.id) =
      List.range' (last_id + 1) mps.length := by
    show (assign_from (last_id + 1)
      (List.insertionSort keyOrder mps)).map (fun mp => mp.id) = _
    rw [assign_from_map_id _ _ (by rw [List.length_insertionSort]; omega),
      List.length_insertionSort]
  have h2 : ((assign_ids (last_id + 1) mps).map
      (fun mp => (mp.zip5, mp.zip4))).Pairwise
      (fun p q => p.1 < q.1 ∨ (p.1 = q.1 ∧ p.2 ≤ q.2)) := by
    show ((assign_from (last_id + 1)
      (List.insertionSort keyOrder mps)).map
        (fun mp => (mp.zip5, mp.zip4))).Pairwise _
    rw [assign_from_map_zips, List.pairwise_map]
    exact hpairS
  have hPairLt : (assign_ids (last_id + 1) mps).Pairwise
      (fun a b => a.id < b.id) := by
    have hr : ((assign_ids (last_id + 1) mps).map
        (fun mp => mp.id)).Pairwise (fun i j => i < j) := by
      rw [h1]
      exact List.pairwise_lt_range' _ _
    exact List.pairwise_map.mp hr
  have hzip5S : (List.insertionSort keyOrder mps).Pairwise zip5Order :=
    hpairS.imp (fun h => by
      rcases h with h | ⟨h, _⟩
      · exact Nat.le_of_lt h
      · exact Nat.le_of_eq h)
  have hzip5L : (assign_ids (last_id + 1) mps).Pairwise zip5Order := by
    have hm : ((assign_ids (last_id + 1) mps).map
        (fun mp => (mp.zip5, mp.zip4))).Pairwise
        (fun p q => p.1 ≤ q.1) := by
      show ((assign_from (last_id + 1)
        (List.insertionSort keyOrder mps)).map
          (fun mp => (mp.zip5, mp.zip4))).Pairwise _
      rw [assign_from_map_zips, List.pairwise_map]
      exact hzip5S
    exact (@List.pairwise_map Mailpiece (Nat × Nat)
      (fun mp => (mp.zip5, mp.zip4)) (fun p q => p.1 ≤ q.1)
      (assign_ids (last_id + 1) mps)).mp hm
  have hsortEq : List.insertionSort zip5Order
      (assign_ids (last_id + 1) mps) = assign_ids (last_id + 1) mps :=
    List.Sorted.insertionSort_eq hzip5L
  have hflatL : (chunkByZip5 (List.insertionSort zip5Order
      (assign_ids (last_id + 1) mps))).flatten =
      assign_ids (last_id + 1) mps := by
    rw [chunkByZip5_flatten, hsortEq]
  have hPairFlat : (chunkByZip5 (List.insertionSort zip5Order
      (assign_ids (last_id + 1) mps))).flatten.Pairwise
      (fun a b => a.id < b.id) := by
    rw [hflatL]
    exact hPairLt
  have h3 : (output_ids (mailing_trays last_id mps)).Perm
      (List.range' (last_id + 1) mps.length) := by
    show (((presort_mailpieces (assign_ids (last_id + 1) mps)).flatMap
      (fun t => t.mailpieces)).map (fun mp => mp.id)).Perm _
    rw [List.flatMap_def]
    refine List.Perm.trans
      (List.Perm.map _ (presort_flatten_perm _)) ?_
    rw [h1]
  have hfive : portion_ids BarcodeId.FiveDigit (mailing_trays last_id mps) =
      (((chunkByZip5 (List.insertionSort zip5Order
        (assign_ids (last_id + 1) mps))).filter
        (fun g => PRESORT_MIN ≤ g.length)).flatten).map
        (fun mp => mp.id) := by
    unfold portion_ids mailing_trays
    rw [presort_mailpieces_def, List.flatMap_def,
      nameTraysFrom_filter_barcode, List.filter_append,
      filter_barcode_all _ _ (flatMap_segment_barcode _ _),
      filter_barcode_none _ _ BarcodeId.MixedAadc (by simp)
        (segment_trays_barcode _ _),
      List.append_nil, flatMap_segment_flatten]
  have hmixed : portion_ids BarcodeId.MixedAadc (mailing_trays last_id mps) =
      (((chunkByZip5 (List.insertionSort zip5Order
        (assign_ids (last_id + 1) mps))).filter
        (fun g => ¬ PRESORT_MIN ≤ g.length)).flatten).map
        (fun mp => mp.id) := by
    unfold portion_ids mailing_trays
    rw [presort_mailpieces_def, List.flatMap_def,
      nameTraysFrom_filter_barcode, List.filter_append,
      filter_barcode_none _ _ BarcodeId.FiveDigit (by simp)
        (flatMap_segment_barcode _ _),
      filter_barcode_all _ _ (segment_trays_barcode _ _),
      List.nil_append, segment_trays_flatten]
    rw [show (((chunkByZip5 (List.insertionSort zip5Order
        (assign_ids (last_id + 1) mps))).filter
        (fun g => ¬ PRESORT_MIN ≤ g.length)).flatMap (fun g => g)) =
        (((chunkByZip5 (List.insertionSort zip5Order
          (assign_ids (last_id + 1) mps))).filter
          (fun g => ¬ PRESORT_MIN ≤ g.length)).flatten) from by
      simp [List.flatMap_def]]
  have h4 : (portion_ids BarcodeId.FiveDigit
      (mailing_trays last_id mps)).Pairwise (fun i j => i < j) := by
    rw [hfive, List.pairwise_map]
    exact List.Pairwise.sublist (flatten_filter_sublist _ _) hPairFlat
  have h5 : (portion_ids BarcodeId.MixedAadc
      (mailing_trays last_id mps)).Pairwise (fun i j => i < j) := by
    rw [hmixed, List.pairwise_map]
    exact List.Pairwise.sublist (flatten_filter_sublist _ _) hPairFlat
  exact ⟨h1, h2, h3, h4, h5⟩

/-- Closed witness for `mailing_ids_spec` at a one-piece mailing. -/
theorem mailing_ids_spec_witness :
    (∀ mp ∈ ([c3_small] : List Mailpiece),
      mp.zip5 < 100000 ∧ mp.zip4 < 10000) ∧
    0 + 1 + ([c3_small] : List Mailpiece).length ≤ 2 ^ 32 ∧
    (assign_ids (0 + 1) [c3_small]).map (fun mp => mp.id) =
      List.range' (0 + 1) ([c3_small] : List Mailpiece).length :=
  ⟨by decide, by decide,
    (mailing_ids_spec 0 [c3_small] (by decide) (by decide)).1⟩

set_option maxRecDepth 10000 in
/-- C3 counterexample: with one mailpiece at zip 10000 and two hundred
at zip 20000 and `last_mailpiece_id = 0`, the final output order is the
FiveDigit tray (ids 2..201) followed by the MixedAadc tray (id 1), so
the ids in final output order are not strictly increasing. -/
theorem mailing_ids_not_increasing :
    ¬ (output_ids (mailing_trays 0 c3_input)).Pairwise
      (fun i j => i < j) :=
  not_pairwise_lt_of_head_last _ 2 1 (by decide) (by decide)
    (by decide) (by decide)

/-! ### Missing-address error in `Mailing::load` (C10) -/

/-- C10: building mailpieces errors with the "missing address" message
naming the person exactly when some person has `adrs == None`; with no
such person the result is one mailpiece per (person, address) pair, so a
person with `Some []` contributes zero mailpieces and no error. -/
theorem build_mailpieces_spec (pers : List Person) :
    ((∃ e, build_mailpieces pers = Except.error e) ↔
      ∃ p ∈ pers, p.adrs = none) ∧
    ((∃ p ∈ pers, p.adrs = none) →
      ∃ p ∈ pers, p.adrs = none ∧
        build_mailpieces pers =
          Except.error ("missing address for " ++ person_display p)) ∧
    ((∀ p ∈ pers, p.adrs ≠ none) →
      build_mailpieces pers =
        Except.ok (pers.flatMap
          (fun p => (p.adrs.getD []).map (mailpiece_of p)))) ∧
    (∀ per rest, pers = per :: rest → per.adrs = some [] →
      build_mailpieces pers = build_mailpieces rest) := by
  refine ⟨?_, ?_, ?_, ?_⟩
  · induction pers with
    | nil =>
      constructor
      · intro ⟨e, he⟩
        simp [build_mailpieces] at he
      · intro ⟨p, hp, _⟩
        simp at hp
    | cons per rest ih =>
      constructor
      · intro ⟨e, he⟩
        rw [build_mailpieces] at he
        cases hadr : per.adrs with
        | none => exact ⟨per, List.mem_cons_self per rest, hadr⟩
        | some adrs =>
          rw [hadr] at he
          cases hrest : build_mailpieces rest with
          | error e2 =>
            obtain ⟨p, hp, hpn⟩ := ih.mp ⟨e2, hrest⟩
            exact ⟨p, List.mem_cons_of_mem per hp, hpn⟩
          | ok ms =>
            rw [hrest] at he
            simp at he
      · intro ⟨p, hp, hpn⟩
        rw [build_mailpieces]
        cases hadr : per.adrs with
        | none => exact ⟨_, rfl⟩
        | some adrs =>
          have hp2 : p ∈ rest := by
            rcases List.mem_cons.mp hp with rfl | hp2
            · rw [hadr] at hpn
              simp at hpn
            · exact hp2
          obtain ⟨e2, he2⟩ := ih.mpr ⟨p, hp2, hpn⟩
          rw [he2]
          exact ⟨e2, rfl⟩
  · induction pers with
    | nil =>
      intro ⟨p, hp, _⟩
      simp at hp
    | cons per rest ih =>
      intro ⟨p, hp, hpn⟩
      cases hadr : per.adrs with
      | none =>
        refine ⟨per, List.mem_cons_self per rest, hadr, ?_⟩
        rw [build_mailpieces, hadr]
      | some adrs =>
        have hp2 : p ∈ rest := by
          rcases List.mem_cons.mp hp with rfl | hp2
          · rw [hadr] at hpn
            simp at hpn
          · exact hp2
        obtain ⟨p3, hp3, hpn3, he3⟩ := ih ⟨p, hp2, hpn⟩
        refine ⟨p3, List.mem_cons_of_mem per hp3, hpn3, ?_⟩
        rw [build_mailpieces, hadr, he3]
  · induction pers with
    | nil =>
      intro _
      rfl
    | cons per rest ih =>
      intro hall
      have hper := hall per (List.mem_cons_self per rest)
      cases hadr : per.adrs with
      | none => exact absurd hadr hper
      | some adrs =>
        rw [build_mailpieces, hadr,
          ih (fun p hp => hall p (List.mem_cons_of_mem per hp))]
        simp [hadr]
  · intro per rest hpr hadr
    subst hpr
    rw [build_mailpieces, hadr]
    cases build_mailpieces rest with
    | error e => rfl
    | ok ms => simp

/-- Closed witness for `build_mailpieces_spec`: a person with an empty
address list yields no error and zero mailpieces. -/
theorem build_mailpieces_spec_witness :
    (∀ p ∈ ([⟨"A", "", "", "", some []⟩] : List Person), p.adrs ≠ none) ∧
    build_mailpieces [⟨"A", "", "", "", some []⟩] =
      Except.ok (([⟨"A", "", "", "", some []⟩] : List Person).flatMap
        (fun p => (p.adrs.getD []).map (mailpiece_of p))) :=
  ⟨by decide,
    (build_mailpieces_spec [⟨"A", "", "", "", some []⟩]).2.2.1 (by decide)⟩

/-! ### USPS standardizer cascade (C5) -/

/-- C5: the per-address standardization equals running the four
spec-described attempts — AsIs, CombineAdr1Adr2, SwapAdr1Adr2, then
DropZip (zip5 cleared and AsIs retried) — in order, stopping at the
first success; and it errors exactly when all four attempts error. -/
theorem standardize_one_cascade (svc : Svc) (adr : Address) :
    standardize_one svc adr = first_success svc (cascade_attempts adr) ∧
    ((∃ e, standardize_one svc adr = Except.error e) ↔
      ∀ att ∈ cascade_attempts adr, ∃ e,
        standardize_address svc att.1 att.2.1 att.2.2 = Except.error e) := by
  cases h1 : standardize_address svc adr StdAdr.AsIs false with
  | ok a1 =>
    constructor
    · simp [standardize_one, first_success, cascade_attempts, h1]
    · simp [standardize_one, cascade_attempts, h1]
  | error e1 =>
    cases h2 : standardize_address svc adr StdAdr.CombineAdr1Adr2 false with
    | ok a2 =>
      constructor
      · simp [standardize_one, first_success, cascade_attempts, h1, h2]
      · simp [standardize_one, cascade_attempts, h1, h2]
    | error e2 =>
      cases h3 : standardize_address svc adr StdAdr.SwapAdr1Adr2 false with
      | ok a3 =>
        constructor
        · simp [standardize_one, first_success, cascade_attempts, h1, h2, h3]
        · simp [standardize_one, cascade_attempts, h1, h2, h3]
      | error e3 =>
        cases h4 : standardize_address svc { adr with zip5 := 0 }
            StdAdr.AsIs true with
        | ok a4 =>
          constructor
          · simp [standardize_one, first_success, cascade_attempts,
              h1, h2, h3, h4]
          · simp [standardize_one, cascade_attempts, h1, h2, h3, h4]
        | error e4 =>
          constructor
          · simp [standardize_one, first_success, cascade_attempts,
              h1, h2, h3, h4]
          · simp [standardize_one, cascade_attempts, h1, h2, h3, h4]

/-! ### Barcode routing code (C6) -/

/-- C6 counterexample: for a mailpiece with `zip5 = 12345`, `zip4 = 0`
and delivery point `"01"`, the code builds routing code `"12345"`
(the delivery point is appended only under the `zip4 != 0` guard), while
the claim's description would give `"1234501"`. -/
theorem routing_code_claim_false :
    routing_code (sampleMp 12345 0 (some "01")) = "12345" ∧
    routing_code_claimed (sampleMp 12345 0 (some "01")) = "1234501" ∧
    routing_code (sampleMp 12345 0 (some "01")) ≠
      routing_code_claimed (sampleMp 12345 0 (some "01")) := by
  refine ⟨by decide, by decide, by decide⟩

/-- C6 (amended): the routing code is the 5-digit zip5, and when zip4 is
non-zero also the 4-digit zip4 followed by the delivery point if one is
present; when zip4 is zero nothing is appended (a present delivery point
is ignored, and an empty one appends nothing). -/
theorem routing_code_eq_amended (mp : Mailpiece) :
    routing_code mp = routing_code_amended mp := by
  unfold routing_code routing_code_amended
  by_cases h4 : mp.zip4 ≠ 0
  · rw [if_pos h4, if_pos h4, if_pos h4]
    cases mp.delivery_point with
    | some dp => simp [String.append_assoc]
    | none => simp
  · rw [if_neg h4, if_neg h4, if_neg h4]
    simp

/-! ### Barcode input validation (C7) -/

/-- C7 counterexample: `barcode_id = "55"` is two ASCII digits and every
other field satisfies the claim's width/charset rules, yet
`encode_barcode` rejects it (its second digit exceeds `'4'`), so the
claim's "exactly when" fails. -/
theorem encode_barcode_claim_false :
    encode_barcode_validate "55" "301" "899999999" "981000" "12345" =
      Except.error "Invalid barcode_id" ∧
    barcode_fields_claimed_valid "55" "301" "899999999" "981000" "12345" := by
  constructor
  · rfl
  · decide

/-- C7 (amended): validation succeeds (and only then is the external
encoder contacted) exactly when every field obeys its width/charset rule
and additionally the second digit of `barcode_id` is at most `'4'`; the
claim's accepted tuple is accepted and `"5a"` is rejected. -/
theorem encode_barcode_validate_iff :
    (∀ b s m sr r : String,
      encode_barcode_validate b s m sr r = Except.ok () ↔
        barcode_fields_valid b s m sr r) ∧
    encode_barcode_validate "50" "301" "899999999" "981000" "12345" =
      Except.ok () ∧
    encode_barcode_validate "5a" "301" "899999999" "981000" "12345" =
      Except.error "Invalid barcode_id" := by
  refine ⟨?_, by rfl, by rfl⟩
  intro b s m sr r
  unfold encode_barcode_validate barcode_fields_valid
    barcode_fields_claimed_valid
  split_ifs with h1 h2 h3 h4 h5
  · simp only [reduceCtorEq, false_iff]
    intro hv
    rcases h1 with h | h | h
    · exact h hv.1.1
    · exact h hv.1.2.1
    · exact absurd h (not_lt.mpr hv.2)
  · simp only [reduceCtorEq, false_iff]
    intro hv
    rcases h2 with h | h
    · exact h hv.1.2.2.1
    · exact h hv.1.2.2.2.1
  · simp only [reduceCtorEq, false_iff]
    intro hv
    rcases h3 with h | h
    · exact h hv.1.2.2.2.2.1
    · exact h hv.1.2.2.2.2.2.1
  · simp only [reduceCtorEq, false_iff]
    intro hv
    rcases h4 with h | h
    · exact h hv.1.2.2.2.2.2.2.1
    · exact h hv.1.2.2.2.2.2.2.2.1
  · simp only [reduceCtorEq, false_iff]
    intro hv
    rcases h5 with h | h
    · exact h hv.1.2.2.2.2.2.2.2.2.1
    · exact h hv.1.2.2.2.2.2.2.2.2.2
  · simp only [true_iff]
    push_neg at h1 h2 h3 h4 h5
    exact ⟨⟨h1.1, h1.2.1, h2.1, h2.2, h3.1, h3.2, h4.1, h4.2,
      h5.1, h5.2⟩, h1.2.2⟩

/-! ### Line-normalizer idempotence (C9) -/

theorem getD_mem_of_lt (l : List String) (i : Nat) (h : i < l.length) :
    l.getD i "" ∈ l := by
  rw [List.getD_eq_getElem l "" h]
  exact List.getElem_mem h

theorem edit_split_bar_id (lnes : List String)
    (h : ∀ l ∈ lnes, l.data.contains '|' = false) :
    edit_split_bar lnes = lnes := by
  induction lnes with
  | nil => rfl
  | cons x xs ih =>
    have hx := h x (List.mem_cons_self x xs)
    have ihx := ih (fun l hl => h l (List.mem_cons_of_mem x hl))
    rw [edit_split_bar] at ihx ⊢
    rw [List.flatMap_cons, if_neg (by simpa using hx),
      List.singleton_append, ihx]

theorem edit_concat_zip_id (lnes : List String)
    (h : ∀ l ∈ lnes, is_zip l = false) :
    edit_concat_zip lnes = lnes := by
  rw [edit_concat_zip]
  have aux : ∀ i, edit_concat_zip_aux lnes i = lnes := by
    intro i
    induction i with
    | zero => rfl
    | succ i ih =>
      have hstep : is_zip (lnes.getD (i + 1) "") = false := by
        by_cases hlt : i + 1 < lnes.length
        · exact h _ (getD_mem_of_lt lnes (i + 1) hlt)
        · rw [List.getD_eq_default lnes "" (by omega)]
          rfl
      have hstep2 : is_zip (lnes[i + 1]?.getD "") = false := by
        rw [← List.getD_eq_getElem?_getD]
        exact hstep
      rw [edit_concat_zip_aux,
        show concatZipStep lnes (i + 1) = lnes by
          simp [concatZipStep, hstep2], ih]
  exact aux _

theorem edit_zip_disjoint_id (lnes : List String)
    (h : ∀ l ∈ lnes,
      ¬ (l.data.length < 5 ∧ l.data.all (fun c => c.isDigit) = true)) :
    edit_zip_disjoint lnes = lnes := by
  rw [edit_zip_disjoint]
  have aux : ∀ i, i ≤ lnes.length - 1 →
      edit_zip_disjoint_aux lnes i = lnes := by
    intro i
    induction i with
    | zero =>
      intro _
      rfl
    | succ i ih =>
      intro hle
      have hlt : i + 1 < lnes.length := by omega
      have hmem := getD_mem_of_lt lnes (i + 1) hlt
      rw [edit_zip_disjoint_aux, if_neg (h _ hmem), ih (by omega)]
  exact aux _ (Nat.le_refl _)

theorem edit_split_csz_id (lnes : List String)
    (h : ∀ l ∈ lnes, ends_with_zip l = none) :
    edit_split_city_state_zip lnes = lnes := by
  rw [edit_split_city_state_zip]
  have aux : ∀ i, edit_split_csz_aux lnes i = lnes := by
    intro i
    induction i with
    | zero => rfl
    | succ i ih =>
      have hstep : ends_with_zip (lnes.getD i "") = none := by
        by_cases hlt : i < lnes.length
        · exact h _ (getD_mem_of_lt lnes i hlt)
        · rw [List.getD_eq_default lnes "" (by omega)]
          rfl
      have hstep2 : ends_with_zip (lnes[i]?.getD "") = none := by
        rw [← List.getD_eq_getElem?_getD]
        exact hstep
      rw [edit_split_csz_aux,
        show splitCSZStep lnes i = lnes by
          simp [splitCSZStep, hstep2], ih]
  exact aux _

theorem edit_drain_id (lnes : List String)
    (h : ∀ l ∈ lnes, is_zip l = false) :
    edit_drain_after_last_zip lnes = lnes := by
  rw [edit_drain_after_last_zip]
  have aux : ∀ i, edit_drain_aux lnes i = lnes := by
    intro i
    induction i with
    | zero => rfl
    | succ i ih =>
      have hstep : is_zip (lnes.getD i "") = false := by
        by_cases hlt : i < lnes.length
        · exact h _ (getD_mem_of_lt lnes i hlt)
        · rw [List.getD_eq_default lnes "" (by omega)]
          rfl
      have hstep2 : is_zip (lnes[i]?.getD "") = false := by
        rw [← List.getD_eq_getElem?_getD]
        exact hstep
      rw [edit_drain_aux, if_neg (by simp [hstep2]), ih]
  exact aux _

theorem edit_single_comma_id (lnes : List String)
    (h : ∀ l ∈ lnes, ¬ l = ",") :
    edit_single_comma lnes = lnes := by
  rw [edit_single_comma, List.filter_eq_self]
  intro l hl
  simpa using h l hl

theorem edit_zip_20003_id (lnes : List String)
    (h : ∀ l ∈ lnes, ¬ l = "20003") :
    edit_zip_20003 lnes = lnes := by
  rw [edit_zip_20003]
  induction lnes with
  | nil => rfl
  | cons x xs ih =>
    rw [List.map_cons, if_neg (h x (List.mem_cons_self x xs)),
      ih (fun l hl => h l (List.mem_cons_of_mem x hl))]

/-- C9 counterexample: the edit pass is not idempotent. On
`["FOO", "12345"]` the bare zip is concatenated onto the non-state line
and re-split, leaving a trailing space; each further application adds
another space, so applying the pass twice differs from applying it
once. -/
theorem edit_lnes_not_idempotent :
    edit_lnes ["FOO", "12345"] = ["FOO ", "12345"] ∧
    edit_lnes ["FOO ", "12345"] = ["FOO  ", "12345"] ∧
    edit_lnes (edit_lnes ["FOO", "12345"]) ≠ edit_lnes ["FOO", "12345"] := by
  refine ⟨by decide, by decide, by decide⟩

/-- C9 (amended): the edit pass is not idempotent on every list (see
`edit_lnes_not_idempotent`); it is idempotent on every list it leaves
fixed, and it fixes every list whose lines contain no bar, are not zips
or short digit fragments, do not end in a zip, and are not `","` or
`"20003"`. -/
theorem edit_lnes_idempotent_amended :
    (∀ lnes : List String, edit_lnes lnes = lnes →
      edit_lnes (edit_lnes lnes) = edit_lnes lnes) ∧
    (∀ lnes : List String,
      (∀ l ∈ lnes, l.data.contains '|' = false) →
      (∀ l ∈ lnes, is_zip l = false) →
      (∀ l ∈ lnes,
        ¬ (l.data.length < 5 ∧ l.data.all (fun c => c.isDigit) = true)) →
      (∀ l ∈ lnes, ends_with_zip l = none) →
      (∀ l ∈ lnes, ¬ l = ",") →
      (∀ l ∈ lnes, ¬ l = "20003") →
      edit_lnes lnes = lnes) := by
  constructor
  · intro lnes h
    rw [h]
    exact h
  · intro lnes hbar hzip hfrag hend hcomma h20003
    rw [edit_lnes, edit_split_bar_id lnes hbar, edit_concat_zip_id lnes hzip,
      edit_zip_disjoint_id lnes hfrag, edit_split_csz_id lnes hend,
      edit_drain_id lnes hzip, edit_single_comma_id lnes hcomma,
      edit_zip_20003_id lnes h20003]

/-- Closed witness for `edit_lnes_idempotent_amended`: the normalized
address `["DANVILLE", "IN", "46122"]` is a fixed point (the zip line
follows a state line), so a second application changes nothing. -/
theorem edit_lnes_idempotent_amended_witness :
    edit_lnes ["DANVILLE", "IN", "46122"] = ["DANVILLE", "IN", "46122"] ∧
    edit_lnes (edit_lnes ["DANVILLE", "IN", "46122"]) =
      edit_lnes ["DANVILLE", "IN", "46122"] :=
  ⟨by decide,
    edit_lnes_idempotent_amended.1 ["DANVILLE", "IN", "46122"] (by decide)⟩

end Adr
